import Mathlib

/-!
Verification of the gittron comment-synchronization core.

This file gives a shallow embedding of the GitHubService operations
(`fetchAllPages`, `getDisplayableCommentIds`, `getPullRequestComments`,
`resolveCommentThread`, `replyToComment`) and of the CommentsProvider
view logic (`refresh` sort comparator, `getChildren` tree construction),
together with theorems settling the specified properties.

Modelling conventions:
  * `created_at` timestamps are modelled as natural numbers (the value of
    `new Date(s).getTime()` in the code); all comparisons in the source
    are on these parsed values.
  * JavaScript truthiness of optional string fields (`comment.path`,
    `thread.id`, ...) is `some s` with `s` non-empty; of optional numeric
    fields (`comment.databaseId`, `comment.line`) it is `some n` with
    `n` nonzero.
  * Network interaction is modelled by environments that map each request
    to either a thrown transport error (`Except.error`) or a decoded
    response; each operation returns its result together with the list of
    requests it issued, so claims about "no network call" are claims
    about that trace.
  * `Array.prototype.sort` is modelled by `jsSort`, a stable
    insertion-based sort.  ECMAScript requires `sort` to be stable, and
    for a consistent comparator every stable sort produces the same,
    uniquely determined, order, so the choice of stable sort is
    immaterial there; for inconsistent comparators ECMAScript leaves the
    order implementation-defined and `jsSort` is one legitimate choice.
  * The `while (currentUrl)` pagination loop is modelled with an explicit
    fuel parameter; theorems about terminating runs supply enough fuel
    for the page chain they describe.
-/

namespace Gittron

/-- JavaScript truthiness of an optional string value
(`undefined` and the empty string are falsy). -/
def truthyS : Option String → Bool
  | none => false
  | some s => decide (s ≠ "")

/-- JavaScript truthiness of an optional integer value
(`undefined` and `0` are falsy). -/
def truthyI : Option Int → Bool
  | none => false
  | some n => decide (n ≠ 0)

/-- JavaScript `a || b` on optional numbers: falls through to `b` when
`a` is absent or `0`. -/
def jsOrI (a b : Option Int) : Option Int :=
  match a with
  | none => b
  | some n => if n = 0 then b else some n

/-- JavaScript `s || ""` on an optional string. -/
def jsOrS (a : Option String) (dflt : String) : String :=
  match a with
  | none => dflt
  | some s => if s = "" then dflt else s

/-! ### A stable sort modelling `Array.prototype.sort` -/

/-- Insert `x` into `l` in front of the first element `y` with `le x y`. -/
def orderedInsert (le : α → α → Bool) (x : α) : List α → List α
  | [] => [x]
  | y :: ys => if le x y then x :: y :: ys else y :: orderedInsert le x ys

/-- Stable insertion sort, the model of `Array.prototype.sort(cmp)` with
`le a b := cmp a b ≤ 0`. -/
def jsSort (le : α → α → Bool) : List α → List α
  | [] => []
  | x :: xs => orderedInsert le x (jsSort le xs)

theorem orderedInsert_perm (le : α → α → Bool) (x : α) (l : List α) :
    (orderedInsert le x l).Perm (x :: l) := by
  induction l with
  | nil => simp [orderedInsert]
  | cons y ys ih =>
    simp only [orderedInsert]
    by_cases h : le x y
    · simp [h]
    · simp only [h, if_neg, Bool.false_eq_true, if_false]
      exact ((ih.cons y).trans (List.Perm.swap x y ys))

theorem jsSort_perm (le : α → α → Bool) (l : List α) :
    (jsSort le l).Perm l := by
  induction l with
  | nil => simp [jsSort]
  | cons x xs ih =>
    simp only [jsSort]
    exact (orderedInsert_perm le x (jsSort le xs)).trans (ih.cons x)

theorem mem_jsSort {le : α → α → Bool} {l : List α} {x : α} :
    x ∈ jsSort le l ↔ x ∈ l :=
  (jsSort_perm le l).mem_iff

theorem mem_orderedInsert {le : α → α → Bool} {l : List α} {x y : α} :
    y ∈ orderedInsert le x l ↔ y = x ∨ y ∈ l := by
  have h : y ∈ orderedInsert le x l ↔ y ∈ x :: l :=
    (orderedInsert_perm le x l).mem_iff
  simpa using h

theorem orderedInsert_pairwise (le : α → α → Bool) (x : α) (l : List α)
    (hl : l.Pairwise (fun a b => le a b = true))
    (htot : ∀ y ∈ l, le x y = true ∨ le y x = true)
    (htrans : ∀ a b, a ∈ x :: l → b ∈ x :: l → ∀ c, c ∈ x :: l →
      le a b = true → le b c = true → le a c = true) :
    (orderedInsert le x l).Pairwise (fun a b => le a b = true) := by
  induction l with
  | nil => simp [orderedInsert]
  | cons y ys ih =>
    simp only [orderedInsert]
    by_cases hxy : le x y
    · simp only [hxy, if_true]
      refine List.pairwise_cons.2 ⟨?_, hl⟩
      intro a ha
      rcases List.mem_cons.1 ha with rfl | ha
      · exact hxy
      · rcases List.pairwise_cons.1 hl with ⟨hy, _⟩
        exact htrans x y (by simp) (by simp) a (by simp [ha]) hxy (hy a ha)
    · simp only [hxy, Bool.false_eq_true, if_false]
      rcases List.pairwise_cons.1 hl with ⟨hy, hys⟩
      have hyx : le y x = true := by
        rcases htot y (by simp) with h | h
        · exact absurd h hxy
        · exact h
      refine List.pairwise_cons.2 ⟨?_, ?_⟩
      · intro a ha
        rcases mem_orderedInsert.1 ha with rfl | ha
        · exact hyx
        · exact hy a ha
      · refine ih hys (fun z hz => htot z (by simp [hz])) ?_
        intro a b ha hb c hc hab hbc
        have hmem : ∀ w, w ∈ x :: ys → w ∈ x :: y :: ys := by
          intro w hw
          rcases List.mem_cons.1 hw with rfl | hw
          · simp
          · simp [hw]
        exact htrans a b (hmem a ha) (hmem b hb) c (hmem c hc) hab hbc

theorem jsSort_pairwise (le : α → α → Bool) (l : List α)
    (htot : ∀ a ∈ l, ∀ b ∈ l, le a b = true ∨ le b a = true)
    (htrans : ∀ a ∈ l, ∀ b ∈ l, ∀ c ∈ l,
      le a b = true → le b c = true → le a c = true) :
    (jsSort le l).Pairwise (fun a b => le a b = true) := by
  induction l with
  | nil => simp [jsSort]
  | cons x xs ih =>
    simp only [jsSort]
    have hsub : ∀ y ∈ jsSort le xs, y ∈ xs := fun y hy => mem_jsSort.1 hy
    refine orderedInsert_pairwise le x (jsSort le xs) ?_ ?_ ?_
    · exact ih (fun a ha b hb => htot a (by simp [ha]) b (by simp [hb]))
        (fun a ha b hb c hc => htrans a (by simp [ha]) b (by simp [hb]) c (by simp [hc]))
    · intro y hy
      exact htot x (by simp) y (by simp [hsub y hy])
    · intro a b ha hb c hc hab hbc
      have hmem : ∀ w, w ∈ x :: jsSort le xs → w ∈ x :: xs := by
        intro w hw
        rcases List.mem_cons.1 hw with rfl | hw
        · simp
        · simp [hsub w hw]
      exact htrans a (hmem a ha) b (hmem b hb) c (hmem c hc) hab hbc

theorem jsSort_of_pairwise (le : α → α → Bool) (l : List α)
    (h : l.Pairwise (fun a b => le a b = true)) : jsSort le l = l := by
  induction l with
  | nil => simp [jsSort]
  | cons x xs ih =>
    rcases List.pairwise_cons.1 h with ⟨hx, hxs⟩
    simp only [jsSort, ih hxs]
    cases xs with
    | nil => simp [orderedInsert]
    | cons y ys => simp [orderedInsert, hx y (by simp)]

theorem orderedInsert_congr (le le' : α → α → Bool) (x : α) (l : List α)
    (h : ∀ y ∈ l, le x y = le' x y) :
    orderedInsert le x l = orderedInsert le' x l := by
  induction l with
  | nil => rfl
  | cons y ys ih =>
    simp only [orderedInsert, h y (by simp)]
    by_cases hxy : le' x y
    · simp [hxy]
    · simp [hxy, ih (fun z hz => h z (by simp [hz]))]

theorem jsSort_congr (le le' : α → α → Bool) (l : List α)
    (h : ∀ a ∈ l, ∀ b ∈ l, le a b = le' a b) :
    jsSort le l = jsSort le' l := by
  induction l with
  | nil => rfl
  | cons x xs ih =>
    simp only [jsSort]
    rw [ih (fun a ha b hb => h a (by simp [ha]) b (by simp [hb]))]
    exact orderedInsert_congr le le' x (jsSort le' xs)
      (fun y hy => h x (by simp) y (by simp [mem_jsSort.1 hy]))

theorem find?_eq_head?_filter (p : α → Bool) (l : List α) :
    l.find? p = (l.filter p).head? :=
  (List.filter_head? p l).symm

/-! ### The `Link` header parser

Model of `linkHeader?.match(/<([^>]+)>;\s*rel="next"/)` followed by
taking capture group 1: scan for the leftmost position at which the
pattern matches and return the captured URL. -/

/-- Characters matched by the regex class `\s`. -/
def wsChar (c : Char) : Bool :=
  c = ' ' || c = '\t' || c = '\n' || c = '\r'

/-- After `<capture>` has been consumed, require `;`, optional
whitespace, then the literal `rel="next"`. -/
def matchAfterGt (cap : List Char) : List Char → Option (List Char)
  | ';' :: rest =>
    if (rest.dropWhile wsChar).take 10 = "rel=\x22next\x22".data then some cap
    else none
  | _ => none

/-- Consume `[^>]+>` starting just after a `<`, accumulating the capture
group (in reverse). -/
def matchCapture : List Char → List Char → Option (List Char)
  | [], _ => none
  | '>' :: rest, acc => if acc = [] then none else matchAfterGt acc.reverse rest
  | c :: rest, acc =>
    if c = '>' then none else matchCapture rest (c :: acc)

/-- Try to match the pattern at the very start of the character list. -/
def matchNextAt : List Char → Option (List Char)
  | '<' :: rest => matchCapture rest []
  | _ => none

/-- Leftmost match of the pattern anywhere in the character list. -/
def findNextLink : List Char → Option String
  | [] => none
  | c :: rest =>
    match matchNextAt (c :: rest) with
    | some cap => some (String.mk cap)
    | none => findNextLink rest

/-- `nextMatch ? nextMatch[1] : null` applied to an optional header. -/
def parseNextLink (link : Option String) : Option String :=
  match link with
  | none => none
  | some s => findNextLink s.data

/-! ### Data model

Records decoded from the GitHub REST and GraphQL payloads; field names
follow the source.  `created_at` is the parsed timestamp. -/

/-- A review comment as returned by the REST
`/repos/{o}/{r}/pulls/{n}/comments` endpoint (the fields the code
reads). -/
structure RestComment where
  id : Int
  body : Option String
  userLogin : Option String
  path : Option String
  line : Option Int
  original_line : Option Int
  position : Option Int
  original_position : Option Int
  created_at : Nat
  html_url : String
  deriving DecidableEq, Repr

/-- A comment node of the GraphQL `reviewThreads` query. -/
structure GComment where
  databaseId : Option Int
  path : Option String
  outdated : Bool
  deriving DecidableEq, Repr

/-- A thread node of the GraphQL `reviewThreads` query.  A missing
`comments.nodes` array behaves like an empty one. -/
structure GThread where
  id : String
  isResolved : Bool
  comments : List GComment
  deriving DecidableEq, Repr

/-- A decoded GraphQL response: the truthiness of `data.errors` and the
thread list reached by the optional chain
`data.data?.repository?.pullRequest?.reviewThreads?.nodes` (a failing
chain behaves like an empty list). -/
structure GraphResp where
  errors : Bool
  threads : List GThread
  deriving DecidableEq, Repr

/-- One page of a paginated REST response: `response.ok`, the decoded
items, and the raw `link` header. -/
structure Page (α : Type) where
  ok : Bool
  items : List α
  link : Option String
  deriving DecidableEq, Repr

/-- The `PullRequestComment` interface of the source: what
`getPullRequestComments` returns to consumers. -/
structure PullRequestComment where
  id : Int
  body : String
  userLogin : String
  path : Option String
  line : Option Int
  position : Option Int
  created_at : Nat
  html_url : String
  resolved : Bool
  threadId : Option String
  isFirstComment : Bool
  deriving DecidableEq, Repr

/-- The network requests an operation can issue. -/
inductive Request where
  | graphDisp
  | graphThreads
  | restPage (url : String)
  | findThreadQ
  | resolveMut
  | getOriginal (url : String)
  | postReply (url : String) (body : String)
  deriving DecidableEq, Repr

/-- The remote world a fetch run interacts with: the credential, the
response to each of the two GraphQL queries (or the transport error the
`fetch` would throw), and the response for each REST URL. -/
structure FetchEnv where
  token : Option String
  graphDisp : Except String GraphResp
  graphThreads : Except String GraphResp
  pages : String → Except String (Page RestComment)

/-! ### JS `Set` / `Map` models -/

/-- `Set.add`: append if not already present. -/
def setAdd (l : List Int) (x : Int) : List Int :=
  if l.contains x then l else l ++ [x]

/-- `Map.set`: overwrite the binding if the key exists, else append. -/
def mapSet (m : List (Int × String)) (k : Int) (v : String) : List (Int × String) :=
  if m.any (fun p => p.1 = k) then
    m.map (fun p => if p.1 = k then (k, v) else p)
  else m ++ [(k, v)]

/-- `Map.get`: the (unique) binding for a key. -/
def mapGet (m : List (Int × String)) (k : Int) : Option String :=
  (m.find? (fun p => p.1 = k)).map (·.2)

theorem contains_iff_mem {l : List Int} {x : Int} :
    l.contains x = true ↔ x ∈ l := by
  simp [List.contains_iff_exists_mem_beq]

theorem mem_setAdd {l : List Int} {x y : Int} :
    y ∈ setAdd l x ↔ y ∈ l ∨ y = x := by
  unfold setAdd
  by_cases h : x ∈ l
  · rw [if_pos (contains_iff_mem.2 h)]
    constructor
    · exact Or.inl
    · rintro (hy | rfl)
      · exact hy
      · exact h
  · rw [if_neg (fun hc => h (contains_iff_mem.1 hc))]
    simp [List.mem_append]

theorem mem_foldl_setAdd {l : List Int} {acc : List Int} {x : Int} :
    x ∈ l.foldl setAdd acc ↔ x ∈ acc ∨ x ∈ l := by
  induction l generalizing acc with
  | nil => simp
  | cons y ys ih =>
    simp only [List.foldl_cons, ih, mem_setAdd, List.mem_cons]
    tauto

/-! ### `GitHubService.getDisplayableCommentIds` -/

/-- The ids added by the two nested `for` loops of
`getDisplayableCommentIds`, in iteration order: a comment contributes
its `databaseId` when
`comment.databaseId && comment.path && !comment.outdated && !thread.isResolved`. -/
def displayCandidates (resp : GraphResp) : List Int :=
  resp.threads.flatMap (fun th =>
    th.comments.filterMap (fun c =>
      match c.databaseId with
      | some n =>
        if n ≠ 0 ∧ truthyS c.path = true ∧ c.outdated = false ∧ th.isResolved = false
        then some n else none
      | none => none))

/-- The `displayableCommentIds` set built by `getDisplayableCommentIds`
from a decoded GraphQL response. -/
def displayableIdsOf (resp : GraphResp) : List Int :=
  (displayCandidates resp).foldl setAdd []

theorem mem_displayableIdsOf {resp : GraphResp} {x : Int} :
    x ∈ displayableIdsOf resp ↔ x ∈ displayCandidates resp := by
  unfold displayableIdsOf
  simp [mem_foldl_setAdd]

/-- `getDisplayableCommentIds`: requires the token, issues the GraphQL
query, and — per the source — swallows both thrown transport errors and
GraphQL `errors` responses into an empty set. -/
def getDisplayableCommentIds (env : FetchEnv) :
    Except String (List Int) × List Request :=
  match env.token with
  | none => (.error "GitHub token not set.", [])
  | some _ =>
    match env.graphDisp with
    | .error _ => (.ok [], [.graphDisp])
    | .ok resp =>
      if resp.errors then (.ok [], [.graphDisp])
      else (.ok (displayableIdsOf resp), [.graphDisp])

/-! ### `GitHubService.fetchAllPages` -/

/-- The first URL requested: the input with `per_page=100` appended
(`url.includes('?') ? '&' : '?'`). -/
def initUrl (url : String) : String :=
  url ++ (if url.data.contains '?' then "&" else "?") ++ "per_page=100"

/-- The `while (currentUrl)` loop of `fetchAllPages`, with fuel standing
in for non-termination of a cyclic link chain. -/
def fetchPagesLoop (pages : String → Except String (Page α)) :
    Nat → String → List α → List Request →
    Except String (List α) × List Request
  | 0, _, _, tr => (.error "model: pagination fuel exhausted", tr)
  | Nat.succ fuel, url, acc, tr =>
    match pages url with
    | .error e => (.error e, tr ++ [.restPage url])
    | .ok page =>
      if page.ok = false then
        (.error "GitHub API error", tr ++ [.restPage url])
      else
        match parseNextLink page.link with
        | some next =>
          fetchPagesLoop pages fuel next (acc ++ page.items) (tr ++ [.restPage url])
        | none => (.ok (acc ++ page.items), tr ++ [.restPage url])

/-- One unrolling of the pagination loop. -/
theorem fetchPagesLoop_succ (pages : String → Except String (Page α))
    (fuel : Nat) (url : String) (acc : List α) (tr : List Request) :
    fetchPagesLoop pages (fuel + 1) url acc tr =
      match pages url with
      | .error e => (.error e, tr ++ [.restPage url])
      | .ok page =>
        if page.ok = false then
          (.error "GitHub API error", tr ++ [.restPage url])
        else
          match parseNextLink page.link with
          | some next =>
            fetchPagesLoop pages fuel next (acc ++ page.items)
              (tr ++ [.restPage url])
          | none => (.ok (acc ++ page.items), tr ++ [.restPage url]) := rfl

/-- `fetchAllPages<T>(url)`: obtain auth headers (failing fast on a
missing token), then follow the `rel="next"` chain. -/
def fetchAllPages (token : Option String)
    (pages : String → Except String (Page α)) (fuel : Nat) (url : String) :
    Except String (List α) × List Request :=
  match token with
  | none => (.error "GitHub token not set. Please set a token using the \x22Set GitHub Token\x22 command.", [])
  | some _ => fetchPagesLoop pages fuel (initUrl url) [] []

/-! ### `GitHubService.getPullRequestComments` -/

/-- The `commentToThreadMap` built from the second GraphQL query:
`map.set(comment.databaseId, thread.id)` for each truthy `databaseId`. -/
def threadMapOf (resp : GraphResp) : List (Int × String) :=
  resp.threads.foldl (fun m th =>
    th.comments.foldl (fun m' c =>
      match c.databaseId with
      | some n => if n ≠ 0 then mapSet m' n th.id else m'
      | none => m') m) []

/-- The sort key used on same-thread REST comments:
`new Date(a.created_at).getTime() - new Date(b.created_at).getTime() ≤ 0`. -/
def leCreated (a b : RestComment) : Bool :=
  decide (a.created_at ≤ b.created_at)

/-- `isFirstComment` for a surviving comment: the id of the
chronologically first among all fetched REST comments mapped to the same
thread (not only the displayable ones) must equal this comment's id. -/
def isFirstIn (tmap : List (Int × String)) (rest : List RestComment)
    (t : String) (rid : Int) : Bool :=
  ((jsSort leCreated
      (rest.filter (fun r => mapGet tmap r.id = some t))).head?.map (·.id))
    = some rid

/-- The object literal produced for one surviving REST comment. -/
def toPull (tmap : List (Int × String)) (rest : List RestComment)
    (c : RestComment) : PullRequestComment :=
  { id := c.id
    body := jsOrS c.body ""
    userLogin := jsOrS c.userLogin "unknown"
    path := c.path
    line := jsOrI c.line c.original_line
    position := jsOrI c.position c.original_position
    created_at := c.created_at
    html_url := c.html_url
    resolved := false
    threadId := mapGet tmap c.id
    isFirstComment :=
      match mapGet tmap c.id with
      | some t => if t = "" then false else isFirstIn tmap rest t c.id
      | none => false }

/-- The `.filter(...).map(...)` pipeline at the end of
`getPullRequestComments`. -/
def buildComments (disp : List Int) (tmap : List (Int × String))
    (rest : List RestComment) : List PullRequestComment :=
  (rest.filter (fun c => disp.contains c.id)).map (toPull tmap rest)

/-- The REST review-comments URL. -/
def commentsUrl (owner repo : String) (pullNumber : Int) : String :=
  "https://api.github.com/repos/" ++ owner ++ "/" ++ repo ++ "/pulls/"
    ++ toString pullNumber ++ "/comments"

/-- `getPullRequestComments`: displayable-id set (with its short-circuit
on emptiness), thread-map query, paginated REST retrieval, then the
filter/map pipeline; the outer `catch` rethrows, so thrown errors
propagate unchanged. -/
def getPullRequestComments (env : FetchEnv) (fuel : Nat)
    (owner repo : String) (pullNumber : Int) :
    Except String (List PullRequestComment) × List Request :=
  match getDisplayableCommentIds env with
  | (.error e, tr) => (.error e, tr)
  | (.ok disp, tr) =>
    if disp.length = 0 then (.ok [], tr)
    else
      match env.token with
      | none => (.error "GitHub token not set.", tr)
      | some _ =>
        match env.graphThreads with
        | .error e => (.error e, tr ++ [.graphThreads])
        | .ok tresp =>
          let tmap := threadMapOf tresp
          match fetchAllPages env.token env.pages fuel
              (commentsUrl owner repo pullNumber) with
          | (.error e, tr2) => (.error e, tr ++ [.graphThreads] ++ tr2)
          | (.ok rest, tr2) =>
            (.ok (buildComments disp tmap rest), tr ++ [.graphThreads] ++ tr2)

/-! ### `GitHubService.resolveCommentThread` -/

/-- The decoded response of the `resolveReviewThread` mutation:
truthiness of `errors` and the value reached by
`data.resolveReviewThread?.thread?.isResolved` (none when the chain
fails). -/
structure ResolveResp where
  errors : Bool
  isResolved : Option Bool
  deriving DecidableEq, Repr

/-- The remote world of a `resolveCommentThread` run. -/
structure ResolveEnv where
  token : Option String
  findResp : Except String GraphResp
  resolveResp : Except String ResolveResp

/-- The thread-search double loop: the inner loop sets
`threadId = thread.id` when the thread holds the comment; the outer loop
exits only when the accumulated `threadId` is truthy. -/
def findThreadGo (cid : Int) : List GThread → Option String → Option String
  | [], acc => acc
  | th :: rest, acc =>
    let acc' :=
      if th.comments.any (fun c => c.databaseId = some cid) then some th.id
      else acc
    if truthyS acc' then acc' else findThreadGo cid rest acc'

/-- `let threadId: string | null = null; for (...) ...` -/
def findThreadLoop (threads : List GThread) (cid : Int) : Option String :=
  findThreadGo cid threads none

/-- `resolveCommentThread`: find the owning thread, return `false`
without the mutation when none is found, and `true` only when the
mutation response confirms `isResolved === true`; thrown errors and
GraphQL `errors` responses at either step are swallowed into `false`. -/
def resolveCommentThread (env : ResolveEnv) (commentId : Int) :
    Except String Bool × List Request :=
  match env.token with
  | none => (.error "GitHub token not set.", [])
  | some _ =>
    match env.findResp with
    | .error _ => (.ok false, [.findThreadQ])
    | .ok fr =>
      if fr.errors then (.ok false, [.findThreadQ])
      else
        match findThreadLoop fr.threads commentId with
        | none => (.ok false, [.findThreadQ])
        | some t =>
          if t = "" then (.ok false, [.findThreadQ])
          else
            match env.resolveResp with
            | .error _ => (.ok false, [.findThreadQ, .resolveMut])
            | .ok rr =>
              if rr.errors then (.ok false, [.findThreadQ, .resolveMut])
              else (.ok (rr.isResolved = some true), [.findThreadQ, .resolveMut])

/-! ### `GitHubService.replyToComment` and its UI entry point -/

/-- A decoded REST response carrying one comment object. -/
structure RestResp where
  ok : Bool
  json : RestComment
  deriving DecidableEq, Repr

/-- The remote world of a `replyToComment` run. -/
structure ReplyEnv where
  token : Option String
  original : Except String RestResp
  post : Except String RestResp

/-- URL of the original-comment lookup. -/
def originalCommentUrl (owner repo : String) (commentId : Int) : String :=
  "https://api.github.com/repos/" ++ owner ++ "/" ++ repo
    ++ "/pulls/comments/" ++ toString commentId

/-- The `PullRequestComment` assembled from the posted reply; the source
object literal omits `threadId` and `isFirstComment` (both optional). -/
def mkReplyComment (r : RestComment) : PullRequestComment :=
  { id := r.id
    body := jsOrS r.body ""
    userLogin := jsOrS r.userLogin "unknown"
    path := r.path
    line := jsOrI r.line r.original_line
    position := jsOrI r.position r.original_position
    created_at := r.created_at
    html_url := r.html_url
    resolved := false
    threadId := none
    isFirstComment := false }

/-- `replyToComment`: auth headers, original-comment lookup, reply post.
The source performs no validation of `replyBody` whatsoever. -/
def replyToComment (env : ReplyEnv) (owner repo : String)
    (pullNumber commentId : Int) (replyBody : String) :
    Except String PullRequestComment × List Request :=
  match env.token with
  | none => (.error "GitHub token not set. Please set a token using the \x22Set GitHub Token\x22 command.", [])
  | some _ =>
    let u1 := originalCommentUrl owner repo commentId
    match env.original with
    | .error e => (.error e, [.getOriginal u1])
    | .ok oresp =>
      if oresp.ok = false then
        (.error "Failed to fetch original comment", [.getOriginal u1])
      else
        let u2 := commentsUrl owner repo pullNumber
        match env.post with
        | .error e => (.error e, [.getOriginal u1, .postReply u2 replyBody])
        | .ok presp =>
          if presp.ok = false then
            (.error "GitHub API error", [.getOriginal u1, .postReply u2 replyBody])
          else
            (.ok (mkReplyComment presp.json),
              [.getOriginal u1, .postReply u2 replyBody])

/-- `input.trim()`: strip leading and trailing whitespace. -/
def jsTrim (s : String) : String :=
  String.mk (((s.data.dropWhile wsChar).reverse.dropWhile wsChar).reverse)

/-- The `validateInput` callback of the reply input box in the extension
(`input.trim().length === 0 ? "Reply cannot be empty" : null`): the only
emptiness validation of a reply body in the repository. -/
def validateReplyInput (input : String) : Option String :=
  if (jsTrim input).length = 0 then some "Reply cannot be empty" else none

/-! ### `CommentsProvider.refresh`: the Thread Model Builder sort -/

/-- `comments.find(c => c.threadId === x.threadId && c.isFirstComment)`. -/
def firstOfThread (l : List PullRequestComment) (tid : Option String) :
    Option PullRequestComment :=
  l.find? (fun c => decide (c.threadId = tid) && c.isFirstComment)

/-- The comparator of `CommentsProvider.refresh`: file comments first,
then cross-thread by the flagged first comments' times (descending) when
both are found, otherwise — and within a thread — by own time
(ascending).  The array captured by the closure is passed as `l`. -/
def cmpC (l : List PullRequestComment) (a b : PullRequestComment) : Int :=
  let aHas : Int := if truthyS a.path then 1 else 0
  let bHas : Int := if truthyS b.path then 1 else 0
  if aHas ≠ bHas then bHas - aHas
  else if a.threadId ≠ b.threadId then
    match firstOfThread l a.threadId, firstOfThread l b.threadId with
    | some fa, some fb => (fb.created_at : Int) - (fa.created_at : Int)
    | _, _ => (a.created_at : Int) - (b.created_at : Int)
  else (a.created_at : Int) - (b.created_at : Int)

/-- `cmp(a, b) <= 0`, the order `Array.prototype.sort` sorts by. -/
def leC (l : List PullRequestComment) (a b : PullRequestComment) : Bool :=
  decide (cmpC l a b ≤ 0)

/-- The sort performed by `CommentsProvider.refresh` on the incoming
comment collection (the Thread Model Builder). -/
def sortComments (l : List PullRequestComment) : List PullRequestComment :=
  jsSort (leC l) l

/-! ### `CommentsProvider.getChildren`: the navigable tree -/

/-- A tree item as far as the structural claims are concerned: the
underlying comment, whether it is rendered expanded, and its
`contextValue`. -/
structure CommentItem where
  comment : PullRequestComment
  expanded : Bool
  isThreadHeader : Bool
  ctx : String
  deriving DecidableEq, Repr

/-- The `prInfo` field of the provider. -/
structure PRInfo where
  owner : String
  repo : String
  number : Int
  deriving DecidableEq, Repr

/-- The synthetic header comment built by `getChildren` when PR info is
present (`id: -1`, no thread linkage). -/
def headerComment (pi : PRInfo) (now : Nat) : PullRequestComment :=
  { id := -1
    body := "Pull Request #" ++ toString pi.number ++ " in "
      ++ pi.owner ++ "/" ++ pi.repo
    userLogin := "system"
    path := none
    line := none
    position := none
    created_at := now
    html_url := "https://github.com/" ++ pi.owner ++ "/" ++ pi.repo
      ++ "/pull/" ++ toString pi.number
    resolved := false
    threadId := none
    isFirstComment := false }

/-- `threadMap.get(id) || []; push; set` — group comments by `threadId`
in first-occurrence order. -/
def groupAdd (m : List (String × List PullRequestComment)) (t : String)
    (c : PullRequestComment) : List (String × List PullRequestComment) :=
  if m.any (fun p => p.1 = t) then
    m.map (fun p => if p.1 = t then (p.1, p.2 ++ [c]) else p)
  else m ++ [(t, [c])]

/-- The `threadMap` built by the grouping loop of `getChildren`. -/
def groupThreads (comments : List PullRequestComment) :
    List (String × List PullRequestComment) :=
  comments.foldl (fun m c =>
    match c.threadId with
    | some t => groupAdd m t c
    | none => m) []

/-- The per-thread items: the member found by
`comments.find(c => c.isFirstComment)` renders as a flat leaf
(single-comment thread) or an expanded thread header; a thread with no
flagged member contributes nothing. -/
def threadItems (comments : List PullRequestComment) : List CommentItem :=
  (groupThreads comments).flatMap (fun p =>
    match p.2.find? (·.isFirstComment) with
    | some f =>
      if p.2.length = 1 then [⟨f, false, false, "prComment"⟩]
      else [⟨f, true, true, "prThreadHeader"⟩]
    | none => [])

/-- The PR-information header item, added when PR info is set and the
collection is non-empty. -/
def headerItems : Option PRInfo → Nat → List PullRequestComment → List CommentItem
  | none, _, _ => []
  | some pi, now, comments =>
    if 0 < comments.length then
      [⟨headerComment pi now, false, false, "prHeader"⟩]
    else []

/-- The top-level item list produced by `getChildren()` with no element
argument: optional PR header, thread items, then standalone comments. -/
def getChildrenTop (pin : Option PRInfo) (now : Nat)
    (comments : List PullRequestComment) : List CommentItem :=
  headerItems pin now comments
  ++ threadItems comments
  ++ (comments.filter (fun c => c.threadId = none)).map
      (fun c => ⟨c, false, false, "prComment"⟩)

/-! ### Inversion lemmas for fetch runs -/

/-- A successful fetch is either the empty short-circuit or the
filter/map pipeline applied to the data of the three remote calls. -/
theorem getPullRequestComments_ok_inv {env : FetchEnv} {fuel : Nat}
    {o r : String} {n : Int} {cs : List PullRequestComment}
    (h : (getPullRequestComments env fuel o r n).fst = .ok cs) :
    cs = [] ∨ ∃ resp tresp rest tr2,
      env.graphDisp = .ok resp ∧ resp.errors = false ∧
      env.graphThreads = .ok tresp ∧
      fetchAllPages env.token env.pages fuel (commentsUrl o r n) =
        (Except.ok rest, tr2) ∧
      cs = buildComments (displayableIdsOf resp) (threadMapOf tresp) rest := by
  unfold getPullRequestComments getDisplayableCommentIds at h
  cases htok : env.token with
  | none => rw [htok] at h; exact absurd h (by simp)
  | some tk =>
    rw [htok] at h
    cases hdisp : env.graphDisp with
    | error e =>
      rw [hdisp] at h
      simp only [List.length_nil, if_pos] at h
      left
      exact (Except.ok.inj h).symm
    | ok resp =>
      rw [hdisp] at h
      by_cases herr : resp.errors
      · simp only [herr, if_true, List.length_nil, if_pos] at h
        left
        exact (Except.ok.inj h).symm
      · simp only [herr, if_false, Bool.false_eq_true] at h
        by_cases hlen : (displayableIdsOf resp).length = 0
        · rw [if_pos hlen] at h
          left
          exact (Except.ok.inj h).symm
        · rw [if_neg hlen] at h
          cases hthr : env.graphThreads with
          | error e => rw [hthr] at h; exact absurd h (by simp)
          | ok tresp =>
            rw [hthr] at h
            cases hfp : fetchAllPages (some tk) env.pages fuel (commentsUrl o r n) with
            | mk res tr2 =>
              rw [hfp] at h
              cases res with
              | error e => exact absurd h (by simp)
              | ok rest =>
                right
                refine ⟨resp, tresp, rest, tr2, rfl, by simpa using herr, rfl, rfl, ?_⟩
                simpa using h.symm

/-- Every item a successful pagination run returns came from some page
the environment served. -/
theorem fetchPagesLoop_mem {pages : String → Except String (Page α)}
    {fuel : Nat} {url : String} {acc : List α} {tr : List Request}
    {rest : List α} {tr2 : List Request}
    (h : fetchPagesLoop pages fuel url acc tr = (Except.ok rest, tr2)) :
    ∀ x ∈ rest, x ∈ acc ∨ ∃ u p, pages u = .ok p ∧ x ∈ p.items := by
  induction fuel generalizing url acc tr with
  | zero => exact absurd (congrArg Prod.fst h) (by simp [fetchPagesLoop])
  | succ fuel ih =>
    intro x hx
    unfold fetchPagesLoop at h
    split at h
    next e hpg => exact absurd (congrArg Prod.fst h) (by simp)
    next page hpg =>
      split at h
      · exact absurd (congrArg Prod.fst h) (by simp)
      · split at h
        next next hnl =>
          rcases ih h x hx with hmem | hfound
          · rcases List.mem_append.1 hmem with hmem | hmem
            · exact Or.inl hmem
            · exact Or.inr ⟨url, page, hpg, hmem⟩
          · exact Or.inr hfound
        next hnl =>
          have hrest : acc ++ page.items = rest := by
            have := congrArg Prod.fst h
            simpa using this
          rcases List.mem_append.1 (hrest ▸ hx) with hmem | hmem
          · exact Or.inl hmem
          · exact Or.inr ⟨url, page, hpg, hmem⟩

theorem fetchAllPages_mem {token : Option String}
    {pages : String → Except String (Page α)} {fuel : Nat} {url : String}
    {rest : List α} {tr2 : List Request}
    (h : fetchAllPages token pages fuel url = (Except.ok rest, tr2)) :
    ∀ x ∈ rest, ∃ u p, pages u = .ok p ∧ x ∈ p.items := by
  intro x hx
  unfold fetchAllPages at h
  cases token with
  | none => exact absurd (congrArg Prod.fst h) (by simp)
  | some tk =>
    rcases fetchPagesLoop_mem h x hx with hmem | hfound
    · exact absurd hmem (by simp)
    · exact hfound

/-- Membership in the displayable-id set, unfolded to the candidate
condition of the nested loops. -/
theorem mem_displayableIdsOf_iff {resp : GraphResp} {x : Int} :
    x ∈ displayableIdsOf resp ↔
      ∃ th ∈ resp.threads, ∃ c ∈ th.comments,
        c.databaseId = some x ∧ x ≠ 0 ∧ truthyS c.path = true ∧
        c.outdated = false ∧ th.isResolved = false := by
  rw [mem_displayableIdsOf]
  unfold displayCandidates
  simp only [List.mem_flatMap, List.mem_filterMap]
  constructor
  · rintro ⟨th, hth, c, hc, hval⟩
    split at hval
    next n hdb =>
      split at hval
      next hcond =>
        rcases hcond with ⟨h0, hp, ho, hr⟩
        have hxn : n = x := by simpa using hval
        subst hxn
        exact ⟨th, hth, c, hc, hdb, h0, hp, ho, hr⟩
      next => exact absurd hval (by simp)
    next => exact absurd hval (by simp)
  · rintro ⟨th, hth, c, hc, hdb, h0, hp, ho, hr⟩
    refine ⟨th, hth, c, hc, ?_⟩
    rw [hdb]
    simp only [if_pos (And.intro h0 (And.intro hp (And.intro ho hr)))]

/-- In `buildComments` output, each comment copies its `id`, `path`,
`created_at` from its REST record, has `resolved = false`, and its id
passed the displayable filter. -/
theorem mem_buildComments {disp : List Int} {tmap : List (Int × String)}
    {rest : List RestComment} {c : PullRequestComment}
    (h : c ∈ buildComments disp tmap rest) :
    ∃ x ∈ rest, x.id ∈ disp ∧ c.id = x.id ∧ c.path = x.path ∧
      c.created_at = x.created_at ∧ c.resolved = false ∧
      c.threadId = mapGet tmap x.id := by
  unfold buildComments at h
  rcases List.mem_map.1 h with ⟨x, hx, hcx⟩
  rcases List.mem_filter.1 hx with ⟨hxr, hxd⟩
  refine ⟨x, hxr, contains_iff_mem.1 hxd, ?_, ?_, ?_, ?_, ?_⟩ <;>
    (rw [← hcx]; rfl)

/-! ## C1 — every surfaced comment is unresolved and file-anchored -/

/-- C1: for every successful run of `getPullRequestComments`, every
returned comment has `resolved = false`; and, assuming the GraphQL and
REST surfaces describe the same comments consistently (a comment object
served on any REST page has the same `path` as the GraphQL node with its
`databaseId`), every returned comment has a truthy (present, non-empty)
`path`.  Only ids in the displayable set survive the filter. -/
theorem fetch_comments_resolved_false_and_file_anchored
    {env : FetchEnv} {fuel : Nat} {o r : String} {n : Int}
    {cs : List PullRequestComment}
    (h : (getPullRequestComments env fuel o r n).fst = .ok cs)
    (hcons : ∀ resp, env.graphDisp = .ok resp →
      ∀ th ∈ resp.threads, ∀ g ∈ th.comments,
      ∀ u p x, env.pages u = .ok p → x ∈ p.items →
        g.databaseId = some x.id → g.path = x.path) :
    ∀ c ∈ cs, c.resolved = false ∧ truthyS c.path = true := by
  intro c hc
  rcases getPullRequestComments_ok_inv h with rfl | hinv
  · exact absurd hc (by simp)
  · rcases hinv with ⟨resp, tresp, rest, tr2, hdisp, _herr, _hthr, hfp, rfl⟩
    rcases mem_buildComments hc with ⟨x, hxr, hxd, _hid, hpath, _hca, hres, _htid⟩
    refine ⟨hres, ?_⟩
    rcases mem_displayableIdsOf_iff.1 hxd with ⟨th, hth, g, hg, hdb, _h0, hp, _ho, _hr⟩
    rcases fetchAllPages_mem hfp x hxr with ⟨u, p, hup, hxp⟩
    have := hcons resp hdisp th hth g hg u p x hup hxp hdb
    rw [hpath, ← this]
    exact hp

/-! Fixtures: a two-comment unresolved thread whose earliest comment is
outdated; one REST page serving both comments. -/

/-- GraphQL node of the earliest comment of the fixture thread —
outdated, hence not displayable. -/
def gNodeOld : GComment := { databaseId := some 1, path := some "src/a.ts", outdated := true }

/-- GraphQL node of the later comment — displayable. -/
def gNodeNew : GComment := { databaseId := some 2, path := some "src/a.ts", outdated := false }

/-- The fixture review thread, unresolved. -/
def gThreadFix : GThread :=
  { id := "T1", isResolved := false, comments := [gNodeOld, gNodeNew] }

/-- The fixture GraphQL response. -/
def graphRespFix : GraphResp := { errors := false, threads := [gThreadFix] }

/-- REST record of the earliest comment (created first). -/
def restOld : RestComment :=
  { id := 1, body := some "first", userLogin := some "alice",
    path := some "src/a.ts", line := some 3, original_line := none,
    position := some 1, original_position := none,
    created_at := 100, html_url := "u1" }

/-- REST record of the later comment. -/
def restNew : RestComment :=
  { id := 2, body := some "second", userLogin := some "bob",
    path := some "src/a.ts", line := some 3, original_line := none,
    position := some 1, original_position := none,
    created_at := 200, html_url := "u2" }

/-- The one REST page of the fixture. -/
def restPageFix : Page RestComment :=
  { ok := true, items := [restOld, restNew], link := none }

/-- Fixture environment: authenticated, consistent responses. -/
def fetchEnvFix : FetchEnv :=
  { token := some "tok"
    graphDisp := .ok graphRespFix
    graphThreads := .ok graphRespFix
    pages := fun _ => .ok restPageFix }

/-- C1 witness: the fixture run succeeds and both conclusions hold on
every returned comment. -/
theorem fetch_comments_resolved_false_and_file_anchored_witness :
    ((getPullRequestComments fetchEnvFix 5 "acme" "widgets" 42).fst.toOption.getD
        []).all (fun c => decide (c.resolved = false) && truthyS c.path) = true := by
  have h : (getPullRequestComments fetchEnvFix 5 "acme" "widgets" 42).fst =
      .ok (buildComments (displayableIdsOf graphRespFix)
        (threadMapOf graphRespFix) [restOld, restNew]) := by rfl
  have hmain := fetch_comments_resolved_false_and_file_anchored h
    (by
      intro resp hresp th hth g hg u p x hup hxp hdb
      have hresp' : resp = graphRespFix := by
        simpa [fetchEnvFix] using hresp.symm
      have hp' : p = restPageFix := by
        simpa [fetchEnvFix] using hup.symm
      subst hresp'
      subst hp'
      simp only [graphRespFix, List.mem_singleton] at hth
      subst hth
      simp only [gThreadFix, List.mem_cons, List.not_mem_nil, or_false] at hg
      simp only [restPageFix, List.mem_cons, List.not_mem_nil, or_false] at hxp
      revert hdb
      rcases hg with rfl | rfl <;> rcases hxp with rfl | rfl <;> decide)
  rw [List.all_eq_true]
  intro c hc
  rw [h] at hc
  have hres := hmain c (by simpa using hc)
  simp [hres.1, hres.2]

/-! ## C3 — the displayable-id set and its short-circuit -/

/-- C3: the displayable-id set contains exactly the truthy-id comments
that are file-anchored, not outdated, and in an unresolved thread; when
that set is empty the fetch returns `[]` without issuing any REST page
request; and every returned comment's id belongs to the set. -/
theorem displayable_id_set_contract
    (env : FetchEnv) (fuel : Nat) (o r : String) (n : Int) (tk : String)
    (htok : env.token = some tk) :
    (∀ resp x, env.graphDisp = .ok resp → x ≠ 0 →
      (x ∈ displayableIdsOf resp ↔
        ∃ th ∈ resp.threads, ∃ c ∈ th.comments,
          c.databaseId = some x ∧ truthyS c.path = true ∧
          c.outdated = false ∧ th.isResolved = false))
  ∧ (∀ resp, env.graphDisp = .ok resp → resp.errors = false →
      displayableIdsOf resp = [] →
      (getPullRequestComments env fuel o r n).fst = .ok [] ∧
      ∀ u, Request.restPage u ∉ (getPullRequestComments env fuel o r n).snd)
  ∧ (∀ cs, (getPullRequestComments env fuel o r n).fst = .ok cs →
      ∀ c ∈ cs, ∀ resp, env.graphDisp = .ok resp → c.id ∈ displayableIdsOf resp) := by
  refine ⟨?_, ?_, ?_⟩
  · intro resp x _ hx0
    rw [mem_displayableIdsOf_iff]
    constructor
    · rintro ⟨th, hth, c, hc, hdb, _h0, hp, ho, hr⟩
      exact ⟨th, hth, c, hc, hdb, hp, ho, hr⟩
    · rintro ⟨th, hth, c, hc, hdb, hp, ho, hr⟩
      exact ⟨th, hth, c, hc, hdb, hx0, hp, ho, hr⟩
  · intro resp hresp herr hempty
    unfold getPullRequestComments getDisplayableCommentIds
    rw [htok, hresp]
    simp [herr, hempty]
  · intro cs hok c hc resp hresp
    rcases getPullRequestComments_ok_inv hok with rfl | hinv
    · exact absurd hc (by simp)
    · rcases hinv with ⟨resp', tresp, rest, tr2, hdisp, _herr, _hthr, _hfp, rfl⟩
      have hre : resp' = resp := by
        rw [hresp] at hdisp
        exact (Except.ok.inj hdisp).symm
      subst hre
      rcases mem_buildComments hc with ⟨x, _hxr, hxd, hid, _⟩
      rw [hid]
      exact hxd

/-- C3 witness: the contract instantiated at the fixture environment;
id 2 is in the set, id 1 (outdated) is not, and the returned comment's
id is in the set. -/
theorem displayable_id_set_contract_witness :
    ((2 : Int) ∈ displayableIdsOf graphRespFix ↔
      ∃ th ∈ graphRespFix.threads, ∃ c ∈ th.comments,
        c.databaseId = some 2 ∧ truthyS c.path = true ∧
        c.outdated = false ∧ th.isResolved = false)
  ∧ ∀ cs, (getPullRequestComments fetchEnvFix 5 "acme" "widgets" 42).fst = .ok cs →
      ∀ c ∈ cs, c.id ∈ displayableIdsOf graphRespFix := by
  have h := displayable_id_set_contract fetchEnvFix 5 "acme" "widgets" 42 "tok" rfl
  refine ⟨h.1 graphRespFix 2 rfl (by decide), ?_⟩
  intro cs hok c hc
  exact h.2.2 cs hok c hc graphRespFix rfl

/-! ## C4 — graph-query failures are not surfaced as fetch failures -/

/-- Fixture environment where the displayable-ids GraphQL query throws a
network error. -/
def netFailEnv : FetchEnv :=
  { token := some "tok"
    graphDisp := .error "ECONNRESET"
    graphThreads := .error "ECONNRESET"
    pages := fun _ => .error "ECONNRESET" }

/-- C4 counterexample: with a valid token and a network error on the
thread-metadata graph query, the fetch RETURNS the empty list — it does
not fail with a typed error, contradicting the claim that any
network/GraphQL error makes the fetch fail rather than produce a
result. -/
theorem fetch_graph_error_returns_empty_cex :
    (getPullRequestComments netFailEnv 5 "acme" "widgets" 42).fst = .ok []
    ∧ (getPullRequestComments netFailEnv 5 "acme" "widgets" 42).snd =
        [Request.graphDisp] :=
  ⟨rfl, rfl⟩

/-- C4 (amended): errors of the displayable-ids graph query — thrown
transport errors and GraphQL `errors` responses alike — are swallowed:
the set is empty and the fetch returns `ok []`.  Errors thrown by the
second (thread-map) graph request, or by the REST pagination, do
propagate as failures, and in that case no comment collection is
produced. -/
theorem fetch_graph_error_swallowed
    (env : FetchEnv) (fuel : Nat) (o r : String) (n : Int) (tk : String)
    (htok : env.token = some tk) :
    (∀ e, env.graphDisp = .error e →
      (getPullRequestComments env fuel o r n).fst = .ok [])
  ∧ (∀ resp, env.graphDisp = .ok resp → resp.errors = true →
      (getPullRequestComments env fuel o r n).fst = .ok [])
  ∧ (∀ resp e, env.graphDisp = .ok resp → resp.errors = false →
      displayableIdsOf resp ≠ [] → env.graphThreads = .error e →
      (getPullRequestComments env fuel o r n).fst = .error e)
  ∧ (∀ resp tresp e tr, env.graphDisp = .ok resp → resp.errors = false →
      displayableIdsOf resp ≠ [] → env.graphThreads = .ok tresp →
      fetchAllPages env.token env.pages fuel (commentsUrl o r n) =
        (Except.error e, tr) →
      (getPullRequestComments env fuel o r n).fst = .error e) := by
  refine ⟨?_, ?_, ?_, ?_⟩
  · intro e hdisp
    unfold getPullRequestComments getDisplayableCommentIds
    rw [htok, hdisp]
    rfl
  · intro resp hdisp herr
    unfold getPullRequestComments getDisplayableCommentIds
    rw [htok, hdisp]
    simp [herr]
  · intro resp e hdisp herr hne hthr
    unfold getPullRequestComments getDisplayableCommentIds
    rw [htok, hdisp, hthr]
    simp [herr, List.length_eq_zero, hne]
  · intro resp tresp e tr hdisp herr hne hthr hfp
    unfold getPullRequestComments getDisplayableCommentIds
    rw [htok, hdisp, hthr]
    rw [htok] at hfp
    rw [hfp]
    simp [herr, List.length_eq_zero, hne]

/-- C4 witness: the amended theorem applied to the failing fixture. -/
theorem fetch_graph_error_swallowed_witness :
    (getPullRequestComments netFailEnv 5 "acme" "widgets" 42).fst = .ok [] :=
  (fetch_graph_error_swallowed netFailEnv 5 "acme" "widgets" 42 "tok" rfl).1
    "ECONNRESET" rfl

/-! ## C7 — reply-body validation -/

/-- Fixture: the original comment the reply targets. -/
def replyOrigFix : RestResp := { ok := true, json := restOld }

/-- Fixture: the comment record the POST returns (the remote accepted
the blank body). -/
def replyPostedFix : RestResp :=
  { ok := true
    json :=
      { id := 7, body := some "   ", userLogin := some "bob",
        path := some "src/a.ts", line := some 3, original_line := none,
        position := some 1, original_position := none,
        created_at := 300, html_url := "u7" } }

/-- Fixture reply environment. -/
def replyEnvFix : ReplyEnv :=
  { token := some "tok", original := .ok replyOrigFix, post := .ok replyPostedFix }

/-- C7 counterexample: called with `body = "   "` (empty after
trimming), `replyToComment` does NOT fail with a validation error and
does NOT avoid network traffic: it issues the original-comment lookup
and then posts the blank reply, returning the constructed comment. -/
theorem reply_empty_body_networks_cex :
    (replyToComment replyEnvFix "acme" "widgets" 42 1 "   ").fst =
      .ok (mkReplyComment replyPostedFix.json)
  ∧ (replyToComment replyEnvFix "acme" "widgets" 42 1 "   ").snd =
      [Request.getOriginal "https://api.github.com/repos/acme/widgets/pulls/comments/1",
       Request.postReply "https://api.github.com/repos/acme/widgets/pulls/42/comments" "   "] :=
  ⟨rfl, rfl⟩

/-- C7 (amended): the service-level `replyToComment` performs no
emptiness validation — with a token present its first action is always
the original-comment lookup, whatever the body.  The only
empty-after-trim rejection in the repository is the UI input-box
validator, which refuses exactly the bodies whose trim is empty before
the service is ever called. -/
theorem reply_validation_at_ui_only (env : ReplyEnv) (owner repo : String)
    (pullNumber commentId : Int) (body : String) (tk : String)
    (htok : env.token = some tk) :
    (replyToComment env owner repo pullNumber commentId body).snd.head? =
      some (Request.getOriginal (originalCommentUrl owner repo commentId))
  ∧ (validateReplyInput body = some "Reply cannot be empty" ↔
      (jsTrim body).length = 0) := by
  constructor
  · unfold replyToComment
    rw [htok]
    cases env.original with
    | error e => rfl
    | ok oresp =>
      dsimp only
      by_cases hok : oresp.ok = false
      · rw [if_pos hok]
        rfl
      · rw [if_neg hok]
        cases env.post with
        | error e => rfl
        | ok presp =>
          dsimp only
          by_cases hpok : presp.ok = false
          · rw [if_pos hpok]
            rfl
          · rw [if_neg hpok]
            rfl
  · unfold validateReplyInput
    by_cases h : (jsTrim body).length = 0
    · simp [h]
    · simp [h]

/-- C7 witness: the amended statement at the blank-body fixture. -/
theorem reply_validation_at_ui_only_witness :
    (replyToComment replyEnvFix "acme" "widgets" 42 1 "   ").snd.head? =
      some (Request.getOriginal "https://api.github.com/repos/acme/widgets/pulls/comments/1")
  ∧ validateReplyInput "   " = some "Reply cannot be empty" := by
  have h := reply_validation_at_ui_only replyEnvFix "acme" "widgets" 42 1 "   " "tok" rfl
  exact ⟨h.1, h.2.2 (by decide)⟩

/-! ## C8 — resolveCommentThread contract -/

/-- If no thread's comment list mentions the id, the search loop yields
nothing. -/
theorem findThreadGo_eq_none (cid : Int) (threads : List GThread)
    (h : ∀ t ∈ threads, ∀ c ∈ t.comments, c.databaseId ≠ some cid) :
    findThreadGo cid threads none = none := by
  induction threads with
  | nil => rfl
  | cons th rest ih =>
    unfold findThreadGo
    have hany : (th.comments.any (fun c => decide (c.databaseId = some cid))) = false := by
      rw [List.any_eq_false]
      intro c hc
      simpa using h th (by simp) c hc
    simp only [hany, Bool.false_eq_true, if_false, truthyS]
    exact ih (fun t ht c hc => h t (by simp [ht]) c hc)

/-- C8: with a token present, `resolveCommentThread` (1) never throws;
(2) when no review thread contains the comment id, returns `false`
without issuing the resolve mutation; (3) returns `true` only when the
mutation response has no errors and confirms `isResolved = true`;
(4, 5) a thrown error or a GraphQL `errors` response on the
thread-lookup query yields `false`. -/
theorem resolve_thread_contract (env : ResolveEnv) (cid : Int) (tk : String)
    (htok : env.token = some tk) :
    (∃ b, (resolveCommentThread env cid).fst = .ok b)
  ∧ (∀ fr, env.findResp = .ok fr →
      (∀ t ∈ fr.threads, ∀ c ∈ t.comments, c.databaseId ≠ some cid) →
      (resolveCommentThread env cid).fst = .ok false ∧
        Request.resolveMut ∉ (resolveCommentThread env cid).snd)
  ∧ ((resolveCommentThread env cid).fst = .ok true →
      ∃ rr, env.resolveResp = .ok rr ∧ rr.errors = false ∧
        rr.isResolved = some true)
  ∧ (∀ e, env.findResp = .error e →
      (resolveCommentThread env cid).fst = .ok false)
  ∧ (∀ fr, env.findResp = .ok fr → fr.errors = true →
      (resolveCommentThread env cid).fst = .ok false) := by
  refine ⟨?_, ?_, ?_, ?_, ?_⟩
  · unfold resolveCommentThread
    rw [htok]
    cases env.findResp with
    | error e => exact ⟨false, rfl⟩
    | ok fr =>
      dsimp only
      by_cases herr : fr.errors = true
      · rw [if_pos herr]
        exact ⟨false, rfl⟩
      · rw [if_neg herr]
        cases findThreadLoop fr.threads cid with
        | none => exact ⟨false, rfl⟩
        | some t =>
          dsimp only
          by_cases ht : t = ""
          · rw [if_pos ht]
            exact ⟨false, rfl⟩
          · rw [if_neg ht]
            cases env.resolveResp with
            | error e => exact ⟨false, rfl⟩
            | ok rr =>
              dsimp only
              by_cases hrerr : rr.errors = true
              · rw [if_pos hrerr]
                exact ⟨false, rfl⟩
              · rw [if_neg hrerr]
                exact ⟨_, rfl⟩
  · intro fr hfr hnone
    have hloopn : findThreadLoop fr.threads cid = none :=
      findThreadGo_eq_none cid fr.threads hnone
    unfold resolveCommentThread
    rw [htok, hfr]
    dsimp only
    by_cases herr : fr.errors = true
    · rw [if_pos herr]
      exact ⟨rfl, by show Request.resolveMut ∉ [Request.findThreadQ]; decide⟩
    · rw [if_neg herr, hloopn]
      exact ⟨rfl, by show Request.resolveMut ∉ [Request.findThreadQ]; decide⟩
  · intro hok
    unfold resolveCommentThread at hok
    rw [htok] at hok
    split at hok
    next => exact Except.noConfusion hok
    next =>
      split at hok
      next => exact Bool.noConfusion (Except.ok.inj hok)
      next fr hfr =>
        split at hok
        next => exact Bool.noConfusion (Except.ok.inj hok)
        next herr =>
          split at hok
          next => exact Bool.noConfusion (Except.ok.inj hok)
          next t hloop =>
            split at hok
            next => exact Bool.noConfusion (Except.ok.inj hok)
            next ht =>
              split at hok
              next e hrr => exact Bool.noConfusion (Except.ok.inj hok)
              next rr hrr =>
                split at hok
                next => exact Bool.noConfusion (Except.ok.inj hok)
                next hrerr =>
                  refine ⟨rr, hrr, by simpa using hrerr, ?_⟩
                  exact of_decide_eq_true (by simpa using Except.ok.inj hok)
  · intro e hfr
    unfold resolveCommentThread
    rw [htok, hfr]
  · intro fr hfr herr
    unfold resolveCommentThread
    rw [htok, hfr]
    dsimp only
    rw [if_pos herr]

/-- Fixture: a thread list that does not contain comment id 99. -/
def resolveEnvFix : ResolveEnv :=
  { token := some "tok"
    findResp := .ok graphRespFix
    resolveResp := .ok { errors := false, isResolved := some true } }

/-- C8 witness: looking up an absent comment id returns `false` and the
mutation is never issued. -/
theorem resolve_thread_contract_witness :
    (resolveCommentThread resolveEnvFix 99).fst = .ok false ∧
      Request.resolveMut ∉ (resolveCommentThread resolveEnvFix 99).snd :=
  (resolve_thread_contract resolveEnvFix 99 "tok" rfl).2.1 graphRespFix rfl
    (by decide)

/-! ## C9 — pagination completeness -/

/-- The url the loop is at when `chain` is still ahead of it: the first
url of the chain, or `v` when the chain is exhausted. -/
def headUrlOr (chain : List (String × Page α)) (v : String) : String :=
  match chain.head? with
  | some q => q.1
  | none => v

/-- `chain` is a run of successful pages each linking (via its `link`
header) to the next, with the last one linking to `v`. -/
def StepsOk (pages : String → Except String (Page α)) :
    List (String × Page α) → String → Prop
  | [], _ => True
  | (u, p) :: rest, v =>
      pages u = .ok p ∧ p.ok = true ∧
      parseNextLink p.link = some (headUrlOr rest v) ∧
      StepsOk pages rest v

/-- The loop traverses a `StepsOk` chain, accumulating its items and
trace, and proceeds from `v` with the remaining fuel. -/
theorem fetchPagesLoop_steps {pages : String → Except String (Page α)}
    (chain : List (String × Page α)) (v : String)
    (acc : List α) (tr : List Request) (fuel : Nat)
    (hsteps : StepsOk pages chain v) (hfuel : chain.length < fuel) :
    fetchPagesLoop pages fuel (headUrlOr chain v) acc tr =
      fetchPagesLoop pages (fuel - chain.length) v
        (acc ++ chain.flatMap (fun q => q.2.items))
        (tr ++ chain.map (fun q => Request.restPage q.1)) := by
  induction chain generalizing acc tr fuel with
  | nil => simp [headUrlOr]
  | cons step rest ih =>
    rcases step with ⟨u, p⟩
    rcases hsteps with ⟨hpg, hok, hnl, hrest⟩
    cases fuel with
    | zero => exact absurd hfuel (by simp)
    | succ fuel =>
      show fetchPagesLoop pages (fuel + 1) u acc tr = _
      rw [fetchPagesLoop_succ, hpg]
      dsimp only
      rw [if_neg (by rw [hok]; exact fun hcontra => Bool.noConfusion hcontra),
        hnl]
      dsimp only
      rw [ih (acc ++ p.items) (tr ++ [Request.restPage u]) fuel hrest
        (by simpa using Nat.lt_of_succ_lt_succ hfuel)]
      simp only [List.flatMap_cons, List.map_cons, List.append_assoc,
        List.length_cons, Nat.add_sub_add_right, List.singleton_append,
        Nat.succ_sub_succ_eq_sub]

/-- C9: with a token present, the paginated fetcher follows `rel="next"`
links to the end: for every chain of P pages (P = `pre.length + 1`,
arbitrary) it returns all items in page order, requesting exactly the
chain's urls; and an error or non-ok response on the page after any good
prefix fails the whole retrieval. -/
theorem pagination_completeness {α : Type} (token : Option String)
    (pages : String → Except String (Page α)) (fuel : Nat)
    (url tk v : String) (pre : List (String × Page α))
    (htok : token = some tk)
    (hanchor : headUrlOr pre v = initUrl url)
    (hsteps : StepsOk pages pre v)
    (hfuel : pre.length < fuel) :
    (∀ plast, pages v = .ok plast → plast.ok = true →
      parseNextLink plast.link = none →
      fetchAllPages token pages fuel url =
        (Except.ok (pre.flatMap (fun q => q.2.items) ++ plast.items),
         pre.map (fun q => Request.restPage q.1) ++ [Request.restPage v]))
  ∧ (∀ e, pages v = .error e →
      (fetchAllPages token pages fuel url).fst = .error e)
  ∧ (∀ p, pages v = .ok p → p.ok = false →
      (fetchAllPages token pages fuel url).fst = .error "GitHub API error") := by
  have hbase :
      fetchAllPages token pages fuel url =
        fetchPagesLoop pages (fuel - pre.length) v
          (pre.flatMap (fun q => q.2.items))
          (pre.map (fun q => Request.restPage q.1)) := by
    unfold fetchAllPages
    rw [htok, ← hanchor]
    have := fetchPagesLoop_steps pre v [] [] fuel hsteps hfuel
    simpa using this
  have hfuel1 : ∃ f, fuel - pre.length = f + 1 := by
    refine ⟨fuel - pre.length - 1, ?_⟩
    omega
  rcases hfuel1 with ⟨f, hf⟩
  refine ⟨?_, ?_, ?_⟩
  · intro plast hpl hok hnl
    rw [hbase, hf, fetchPagesLoop_succ, hpl]
    dsimp only
    rw [if_neg (by rw [hok]; exact fun hcontra => Bool.noConfusion hcontra),
      hnl]
  · intro e hpe
    rw [hbase, hf, fetchPagesLoop_succ, hpe]
  · intro p hpl hok
    rw [hbase, hf, fetchPagesLoop_succ, hpl]
    dsimp only
    rw [if_pos hok]

/-- Fixture: three items over two pages linked by a `rel="next"`
header. -/
def pagesFix : String → Except String (Page Nat) := fun u =>
  if u = "base?per_page=100" then
    .ok { ok := true, items := [1, 2], link := some "<p2>; rel=\x22next\x22" }
  else if u = "p2" then
    .ok { ok := true, items := [3], link := none }
  else .error "404"

/-- C9 witness: the two-page fixture returns all three items in page
order and requests exactly the two page urls. -/
theorem pagination_completeness_witness :
    fetchAllPages (some "tok") pagesFix 5 "base" =
      (Except.ok [1, 2, 3],
       [Request.restPage "base?per_page=100", Request.restPage "p2"]) := by
  have h := pagination_completeness (some "tok") pagesFix 5 "base" "tok" "p2"
    [("base?per_page=100",
      { ok := true, items := [1, 2], link := some "<p2>; rel=\x22next\x22" })]
    rfl (by decide)
    (by
      refine ⟨rfl, rfl, ?_, trivial⟩
      show parseNextLink (some "<p2>; rel=\x22next\x22") = some (headUrlOr [] "p2")
      decide)
    (by decide)
  have h1 := h.1 { ok := true, items := [3], link := none } rfl rfl rfl
  simpa using h1

/-! ## C10 — only first-flagged comments reach the tree top level -/

/-- Lookup of the value stored for a thread id in the grouping map. -/
def lookupG (m : List (String × List PullRequestComment)) (t : String) :
    Option (List PullRequestComment) :=
  (m.find? (fun p => p.1 = t)).map (·.2)

/-- What the grouping loop appends for one thread id: the old value (or
`[]`) extended with the new comments. -/
def combineG (o : Option (List PullRequestComment))
    (l : List PullRequestComment) : Option (List PullRequestComment) :=
  match o, l with
  | none, [] => none
  | none, l => some l
  | some g, l => some (g ++ l)

/-- The step function of the grouping loop. -/
def stepG (m : List (String × List PullRequestComment))
    (c : PullRequestComment) : List (String × List PullRequestComment) :=
  match c.threadId with
  | some t => groupAdd m t c
  | none => m

theorem lookupG_groupAdd (m : List (String × List PullRequestComment))
    (t t' : String) (c : PullRequestComment) :
    lookupG (groupAdd m t c) t' =
      if t' = t then some ((lookupG m t).getD [] ++ [c]) else lookupG m t' := by
  unfold groupAdd
  by_cases hany : m.any (fun p => decide (p.1 = t)) = true
  · rw [if_pos hany]
    unfold lookupG
    rw [List.find?_map]
    have hpred : (fun (p : String × List PullRequestComment) =>
        decide (p.1 = t')) ∘ (fun p => if p.1 = t then (p.1, p.2 ++ [c]) else p) =
        fun p => decide (p.1 = t') := by
      funext p
      by_cases hp : p.1 = t <;> simp [hp]
    rw [hpred]
    by_cases ht' : t' = t
    · subst ht'
      rcases List.any_eq_true.1 hany with ⟨q, hq, hqt⟩
      have hsome : (m.find? (fun p => decide (p.1 = t'))).isSome :=
        List.find?_isSome.mpr ⟨q, hq, hqt⟩
      rcases Option.isSome_iff_exists.1 hsome with ⟨found, hfound⟩
      have hkey' : found.1 = t' := by
        have hs := List.find?_some hfound
        simpa using hs
      rw [hfound, if_pos rfl]
      simp [hkey']
    · rw [if_neg ht']
      cases hfound : m.find? (fun p => decide (p.1 = t')) with
      | none => rfl
      | some found =>
        have hkey : found.1 = t' := by
          have hs := List.find?_some hfound
          simpa using hs
        have hne : ¬ found.1 = t := by rw [hkey]; exact ht'
        simp [hne]
  · rw [if_neg hany]
    unfold lookupG
    rw [List.find?_append]
    have hanyf : (m.any fun p => decide (p.1 = t)) = false := by
      rwa [Bool.not_eq_true] at hany
    have hfindt : m.find? (fun p => decide (p.1 = t)) = none := by
      rw [List.find?_eq_none]
      intro x hx
      exact List.any_eq_false.1 hanyf x hx
    by_cases ht' : t' = t
    · subst ht'
      rw [if_pos rfl, hfindt]
      simp [List.find?]
    · rw [if_neg ht']
      cases hfound : m.find? (fun p => decide (p.1 = t')) with
      | none =>
        have hsingle : ([((t : String), [c])].find?
            (fun p => decide (p.1 = t'))) = none := by
          simp only [List.find?]
          rw [decide_eq_false (fun hcontra => ht' hcontra.symm)]
        rw [hsingle]
        rfl
      | some found =>
        rfl

theorem lookupG_foldl (cs : List PullRequestComment)
    (m : List (String × List PullRequestComment)) (t : String) :
    lookupG (cs.foldl stepG m) t =
      combineG (lookupG m t) (cs.filter (fun c => c.threadId = some t)) := by
  induction cs generalizing m with
  | nil =>
    simp only [List.foldl_nil, List.filter_nil]
    cases h : lookupG m t <;> simp [combineG]
  | cons c cs ih =>
    simp only [List.foldl_cons]
    rw [ih]
    cases htid : c.threadId with
    | none =>
      have hstep : stepG m c = m := by unfold stepG; rw [htid]
      have hfilter : decide (c.threadId = some t) = false := by
        rw [htid]; simp
      rw [hstep, List.filter_cons, hfilter]
      simp
    | some t0 =>
      have hstep : stepG m c = groupAdd m t0 c := by unfold stepG; rw [htid]
      rw [hstep, lookupG_groupAdd]
      by_cases ht : t = t0
      · subst ht
        have hfilter : decide (c.threadId = some t) = true := by
          rw [htid]; simp
        rw [if_pos rfl, List.filter_cons, hfilter]
        simp only [if_true]
        cases hlk : lookupG m t <;> simp [combineG]
      · have hfilter : decide (c.threadId = some t) = false := by
          rw [htid]
          simp only [Option.some.injEq, decide_eq_false_iff_not]
          exact fun hcontra => ht hcontra.symm
        rw [if_neg ht, List.filter_cons, hfilter]
        simp

/-- Keys accumulated by the grouping loop stay duplicate-free. -/
theorem keys_nodup_foldl (cs : List PullRequestComment)
    (m : List (String × List PullRequestComment))
    (hm : (m.map Prod.fst).Nodup) :
    ((cs.foldl stepG m).map Prod.fst).Nodup := by
  induction cs generalizing m with
  | nil => exact hm
  | cons c cs ih =>
    simp only [List.foldl_cons]
    refine ih _ ?_
    cases htid : c.threadId with
    | none =>
      have hstep : stepG m c = m := by unfold stepG; rw [htid]
      rw [hstep]
      exact hm
    | some t =>
      have hstep : stepG m c = groupAdd m t c := by unfold stepG; rw [htid]
      rw [hstep]
      unfold groupAdd
      by_cases hany : m.any (fun p => decide (p.1 = t)) = true
      · rw [if_pos hany]
        have hkeys : (m.map (fun p => if p.1 = t then (p.1, p.2 ++ [c]) else p)).map
            Prod.fst = m.map Prod.fst := by
          rw [List.map_map]
          refine List.map_congr_left ?_
          intro p _
          by_cases hp : p.1 = t <;> simp [hp]
        rw [hkeys]
        exact hm
      · rw [if_neg hany]
        rw [List.map_append, List.nodup_append]
        refine ⟨hm, by simp, ?_⟩
        intro a ha hb
        have hat : a = t := by simpa using hb
        rcases List.mem_map.1 ha with ⟨p, hp, hpt⟩
        have hanyf : (m.any fun p => decide (p.1 = t)) = false := by
          rwa [Bool.not_eq_true] at hany
        have hnp := List.any_eq_false.1 hanyf p hp
        exact hnp (by simp [hpt, hat])

/-- With duplicate-free keys, association-list membership determines the
lookup. -/
theorem find?_of_mem_nodup_keys
    {m : List (String × List PullRequestComment)} {t : String}
    {g : List PullRequestComment}
    (hnodup : (m.map Prod.fst).Nodup) (hmem : (t, g) ∈ m) :
    m.find? (fun p => p.1 = t) = some (t, g) := by
  induction m with
  | nil => exact absurd hmem (by simp)
  | cons q m ih =>
    rcases List.mem_cons.1 hmem with rfl | hmem'
    · simp [List.find?]
    · have hnodup' : (q.1 :: m.map Prod.fst).Nodup := by simpa using hnodup
      rcases List.nodup_cons.1 hnodup' with ⟨hq, hm⟩
      have hqt : ¬ q.1 = t := by
        intro hcontra
        exact hq (hcontra ▸ List.mem_map.2 ⟨(t, g), hmem', rfl⟩)
      simp only [List.find?]
      rw [decide_eq_false hqt]
      exact ih hm hmem'

/-- Each group of `groupThreads` is exactly the (non-empty) sublist of
comments carrying that thread id, in order. -/
theorem mem_groupThreads {cs : List PullRequestComment} {t : String}
    {g : List PullRequestComment} (hmem : (t, g) ∈ groupThreads cs) :
    g = cs.filter (fun c => c.threadId = some t) ∧ g ≠ [] := by
  have hfind : (groupThreads cs).find? (fun p => p.1 = t) = some (t, g) :=
    find?_of_mem_nodup_keys (keys_nodup_foldl cs [] (by simp)) hmem
  have hlk : lookupG (groupThreads cs) t = some g := by
    unfold lookupG
    rw [hfind]
    rfl
  have hfold := lookupG_foldl cs [] t
  rw [show (groupThreads cs) = cs.foldl stepG [] from rfl] at hlk
  rw [hlk] at hfold
  have hlknil : lookupG [] t = none := rfl
  rw [hlknil] at hfold
  cases hflt : cs.filter (fun c => c.threadId = some t) with
  | nil =>
    rw [hflt] at hfold
    exact absurd hfold (by simp [combineG])
  | cons x xs =>
    rw [hflt] at hfold
    have hsome : some g = some (x :: xs) := by simpa [combineG] using hfold
    have hg : g = x :: xs := Option.some.inj hsome
    constructor
    · rw [hg]
    · rw [hg]
      simp

/-- C10: in `getChildren`'s top level, a thread-linked comment appears
only as the member whose `isFirstComment` is set (a flat leaf when the
thread has one comment, an expanded header when it has several); a
thread none of whose comments is flagged contributes no item at all,
even though its comments stay in the provider's collection. -/
theorem tree_items_only_first_flagged (pin : Option PRInfo) (now : Nat)
    (comments : List PullRequestComment) (t : String)
    (hnone : ∀ c ∈ comments, c.threadId = some t → c.isFirstComment = false) :
    (∀ item ∈ getChildrenTop pin now comments, ∀ t0,
        item.comment.threadId = some t0 →
        item.comment ∈ comments ∧ item.comment.isFirstComment = true ∧
        item.isThreadHeader =
          decide (1 < (comments.filter (fun c => c.threadId = some t0)).length))
  ∧ (∀ item ∈ getChildrenTop pin now comments, item.comment.threadId ≠ some t)
  ∧ (∀ c ∈ comments, c.threadId = some t →
      ∀ item ∈ getChildrenTop pin now comments, item.comment ≠ c) := by
  have hpart1 : ∀ item ∈ getChildrenTop pin now comments, ∀ t0,
      item.comment.threadId = some t0 →
      item.comment ∈ comments ∧ item.comment.isFirstComment = true ∧
      item.isThreadHeader =
        decide (1 < (comments.filter (fun c => c.threadId = some t0)).length) := by
    intro item hitem t0 htid
    unfold getChildrenTop at hitem
    rcases List.mem_append.1 hitem with hitem | hitem
    · rcases List.mem_append.1 hitem with hitem | hitem
      · -- PR header item: threadId is none
        exfalso
        cases pin with
        | none => exact absurd hitem (by simp [headerItems])
        | some pi =>
          unfold headerItems at hitem
          split at hitem
          · exact absurd hitem (by simp)
          · split at hitem
            · rw [List.eq_of_mem_singleton hitem] at htid
              exact Option.noConfusion htid
            · exact absurd hitem (by simp)
      · -- thread item
        unfold threadItems at hitem
        rcases List.mem_flatMap.1 hitem with ⟨⟨t', g⟩, hgrp, hin⟩
        rcases mem_groupThreads hgrp with ⟨hg, hgne⟩
        cases hfind : g.find? (fun c => c.isFirstComment) with
        | none => rw [hfind] at hin; exact absurd hin (by simp)
        | some f =>
          rw [hfind] at hin
          have hin2 : item ∈
              (if g.length = 1 then
                [(⟨f, false, false, "prComment"⟩ : CommentItem)]
              else [⟨f, true, true, "prThreadHeader"⟩]) := hin
          have hf_mem_g : f ∈ g := List.mem_of_find?_eq_some hfind
          have hf_flag : f.isFirstComment = true := List.find?_some hfind
          have hf_filter : f ∈ comments.filter (fun c => c.threadId = some t') :=
            hg ▸ hf_mem_g
          rcases List.mem_filter.1 hf_filter with ⟨hf_comments, hf_tid⟩
          have hf_tid' : f.threadId = some t' := of_decide_eq_true hf_tid
          by_cases hlen1 : g.length = 1
          · rw [if_pos hlen1] at hin2
            have heq : item = ⟨f, false, false, "prComment"⟩ :=
              List.eq_of_mem_singleton hin2
            subst heq
            have ht0 : t0 = t' := by
              have := htid.symm.trans hf_tid'
              exact Option.some.inj this
            subst ht0
            refine ⟨hf_comments, hf_flag, ?_⟩
            rw [← hg, hlen1]
            simp
          · rw [if_neg hlen1] at hin2
            have heq : item = ⟨f, true, true, "prThreadHeader"⟩ :=
              List.eq_of_mem_singleton hin2
            subst heq
            have ht0 : t0 = t' := by
              have := htid.symm.trans hf_tid'
              exact Option.some.inj this
            subst ht0
            refine ⟨hf_comments, hf_flag, ?_⟩
            rw [← hg]
            have hpos : 0 < g.length := List.length_pos.2 hgne
            have : 1 < g.length := by omega
            simp [this]
    · -- standalone item: threadId is none
      exfalso
      rcases List.mem_map.1 hitem with ⟨c, hc, hitem_eq⟩
      rcases List.mem_filter.1 hc with ⟨_, hc_tid⟩
      have : c.threadId = none := of_decide_eq_true hc_tid
      rw [← hitem_eq] at htid
      exact Option.noConfusion (this ▸ htid)
  refine ⟨hpart1, ?_, ?_⟩
  · intro item hitem hcontra
    rcases hpart1 item hitem t hcontra with ⟨hmem, hflag, _⟩
    exact Bool.noConfusion ((hnone item.comment hmem hcontra).symm.trans hflag)
  · intro c hc hc_tid item hitem heq
    have : item.comment.threadId ≠ some t := by
      intro hcontra
      rcases hpart1 item hitem t hcontra with ⟨hmem, hflag, _⟩
      exact Bool.noConfusion ((hnone item.comment hmem hcontra).symm.trans hflag)
    exact this (heq ▸ hc_tid)

/-- Fixture: a two-comment thread with no flagged member next to a
properly flagged single-comment thread. -/
def lostThreadComments : List PullRequestComment :=
  [{ id := 1, body := "a", userLogin := "u", path := some "f.ts",
     line := some 1, position := some 1, created_at := 5, html_url := "h1",
     resolved := false, threadId := some "T", isFirstComment := false },
   { id := 2, body := "b", userLogin := "u", path := some "f.ts",
     line := some 1, position := some 1, created_at := 6, html_url := "h2",
     resolved := false, threadId := some "T", isFirstComment := false },
   { id := 3, body := "c", userLogin := "u", path := some "f.ts",
     line := some 2, position := some 2, created_at := 7, html_url := "h3",
     resolved := false, threadId := some "U", isFirstComment := true }]

/-- C10 witness: thread `T` (no flagged member) contributes no tree
item: its two comments are invisible although still in the collection. -/
theorem tree_items_only_first_flagged_witness :
    (getChildrenTop none 99 lostThreadComments).all
      (fun item => !decide (item.comment.threadId = some "T")) = true := by
  have h := tree_items_only_first_flagged none 99 lostThreadComments "T"
    (by decide)
  rw [List.all_eq_true]
  intro item hitem
  simpa using h.2.1 item hitem

/-! ## The refresh comparator: order-theoretic structure -/

/-- The file-anchoring rank of a comment in the comparator. -/
def rankOf (a : PullRequestComment) : Int :=
  if truthyS a.path then 1 else 0

/-- The thread/chronology part of the comparator, reached when ranks
tie. -/
def cmpInner (l : List PullRequestComment) (a b : PullRequestComment) : Int :=
  if a.threadId ≠ b.threadId then
    match firstOfThread l a.threadId, firstOfThread l b.threadId with
    | some fa, some fb => (fb.created_at : Int) - (fa.created_at : Int)
    | _, _ => (a.created_at : Int) - (b.created_at : Int)
  else (a.created_at : Int) - (b.created_at : Int)

theorem cmpC_split (l : List PullRequestComment) (a b : PullRequestComment) :
    cmpC l a b =
      if rankOf a ≠ rankOf b then rankOf b - rankOf a else cmpInner l a b :=
  rfl

/-- The comparator is antisymmetric, hence the induced `≤ 0` order is
total. -/
theorem cmpC_swap (l : List PullRequestComment) (a b : PullRequestComment) :
    cmpC l b a = -(cmpC l a b) := by
  rw [cmpC_split l a b, cmpC_split l b a]
  by_cases h1 : rankOf a = rankOf b
  · rw [if_neg (by rw [h1]; exact fun hc => hc rfl),
      if_neg (fun hc => hc h1)]
    unfold cmpInner
    by_cases h2 : a.threadId = b.threadId
    · rw [if_neg (by rw [h2]; exact fun hc => hc rfl),
        if_neg (fun hc => hc h2)]
      ring
    · rw [if_pos (fun hc => h2 hc.symm), if_pos h2]
      cases hfa : firstOfThread l a.threadId <;>
        cases hfb : firstOfThread l b.threadId <;> dsimp only <;> ring
  · rw [if_pos (fun hc => h1 hc.symm), if_pos h1]
    ring

theorem leC_total (l : List PullRequestComment) (a b : PullRequestComment) :
    leC l a b = true ∨ leC l b a = true := by
  unfold leC
  rcases le_or_lt (cmpC l a b) 0 with h | h
  · exact Or.inl (decide_eq_true h)
  · refine Or.inr (decide_eq_true ?_)
    rw [cmpC_swap]
    omega

/-- The uniqueness hypothesis: for every comment of the collection,
exactly one member shares its thread id and carries the first-in-thread
flag. -/
def UniqueFlagged (l : List PullRequestComment) : Prop :=
  ∀ a ∈ l, (l.filter (fun c =>
    decide (c.threadId = a.threadId) && c.isFirstComment)).length = 1

/-- The separation hypothesis: flagged comments of different threads
have different creation times. -/
def FlaggedSeparated (l : List PullRequestComment) : Prop :=
  ∀ a ∈ l, ∀ b ∈ l, a.isFirstComment = true → b.isFirstComment = true →
    a.threadId ≠ b.threadId → a.created_at ≠ b.created_at

theorem firstOfThread_spec (l : List PullRequestComment)
    (a : PullRequestComment)
    (h : (l.filter (fun c =>
      decide (c.threadId = a.threadId) && c.isFirstComment)).length = 1) :
    ∃ fa, firstOfThread l a.threadId = some fa ∧ fa ∈ l ∧
      fa.threadId = a.threadId ∧ fa.isFirstComment = true := by
  unfold firstOfThread
  rw [find?_eq_head?_filter]
  rcases List.length_eq_one.1 h with ⟨fa, hfa⟩
  have hmem : fa ∈ l.filter (fun c =>
      decide (c.threadId = a.threadId) && c.isFirstComment) := by
    rw [hfa]
    simp
  rcases List.mem_filter.1 hmem with ⟨hmem', hprop⟩
  have hprop' : fa.threadId = a.threadId ∧ fa.isFirstComment = true := by
    simpa using hprop
  exact ⟨fa, by rw [hfa]; rfl, hmem', hprop'.1, hprop'.2⟩

/-- Transitivity of the comparator order on the members of a collection
satisfying the two hypotheses. -/
theorem leC_trans_members (l : List PullRequestComment)
    (h2 : UniqueFlagged l) (h3 : FlaggedSeparated l) :
    ∀ a ∈ l, ∀ b ∈ l, ∀ c ∈ l,
      leC l a b = true → leC l b c = true → leC l a c = true := by
  intro a ha b hb c hc hab hbc
  replace hab : cmpC l a b ≤ 0 := of_decide_eq_true hab
  replace hbc : cmpC l b c ≤ 0 := of_decide_eq_true hbc
  apply decide_eq_true
  obtain ⟨fa, hfa, hfal, hfat, hfaf⟩ := firstOfThread_spec l a (h2 a ha)
  obtain ⟨fb, hfb, hfbl, hfbt, hfbf⟩ := firstOfThread_spec l b (h2 b hb)
  obtain ⟨fc, hfc, hfcl, hfct, hfcf⟩ := firstOfThread_spec l c (h2 c hc)
  have hinner_ab : a.threadId ≠ b.threadId →
      cmpInner l a b = (fb.created_at : Int) - fa.created_at := by
    intro hne
    unfold cmpInner
    rw [if_pos hne, hfa, hfb]
  have hinner_bc : b.threadId ≠ c.threadId →
      cmpInner l b c = (fc.created_at : Int) - fb.created_at := by
    intro hne
    unfold cmpInner
    rw [if_pos hne, hfb, hfc]
  have hinner_ac : a.threadId ≠ c.threadId →
      cmpInner l a c = (fc.created_at : Int) - fa.created_at := by
    intro hne
    unfold cmpInner
    rw [if_pos hne, hfa, hfc]
  have hinner_trans : cmpInner l a b ≤ 0 → cmpInner l b c ≤ 0 →
      cmpInner l a c ≤ 0 := by
    intro hiab hibc
    by_cases hTab : a.threadId = b.threadId
    · have hfaeqb : fa = fb := by
        rw [hTab] at hfa
        exact Option.some.inj (hfa.symm.trans hfb)
      by_cases hTbc : b.threadId = c.threadId
      · have hTac : a.threadId = c.threadId := hTab.trans hTbc
        have h1 : cmpInner l a b = (a.created_at : Int) - b.created_at := by
          unfold cmpInner
          rw [if_neg (by rw [hTab]; exact fun hcon => hcon rfl)]
        have h2' : cmpInner l b c = (b.created_at : Int) - c.created_at := by
          unfold cmpInner
          rw [if_neg (by rw [hTbc]; exact fun hcon => hcon rfl)]
        have h3' : cmpInner l a c = (a.created_at : Int) - c.created_at := by
          unfold cmpInner
          rw [if_neg (by rw [hTac]; exact fun hcon => hcon rfl)]
        rw [h1] at hiab
        rw [h2'] at hibc
        rw [h3']
        omega
      · have hTac : a.threadId ≠ c.threadId := by rw [hTab]; exact hTbc
        rw [hinner_bc hTbc] at hibc
        rw [hinner_ac hTac, hfaeqb]
        omega
    · have hsep_ab : fb.created_at ≠ fa.created_at :=
        h3 fb hfbl fa hfal hfbf hfaf (by rw [hfbt, hfat]; exact fun hcon => hTab hcon.symm)
      rw [hinner_ab hTab] at hiab
      by_cases hTbc : b.threadId = c.threadId
      · have hfbeqc : fb = fc := by
          rw [hTbc] at hfb
          exact Option.some.inj (hfb.symm.trans hfc)
        have hTac : a.threadId ≠ c.threadId := by rw [← hTbc]; exact hTab
        rw [hinner_ac hTac, ← hfbeqc]
        omega
      · have hsep_bc : fc.created_at ≠ fb.created_at :=
          h3 fc hfcl fb hfbl hfcf hfbf (by rw [hfct, hfbt]; exact fun hcon => hTbc hcon.symm)
        rw [hinner_bc hTbc] at hibc
        by_cases hTac : a.threadId = c.threadId
        · have hfaeqc : fa = fc := by
            rw [hTac] at hfa
            exact Option.some.inj (hfa.symm.trans hfc)
          rw [hfaeqc] at hiab hsep_ab
          omega
        · rw [hinner_ac hTac]
          omega
  rw [cmpC_split] at hab hbc ⊢
  cases hpa : truthyS a.path <;> cases hpb : truthyS b.path <;>
    cases hpc : truthyS c.path <;>
    simp only [rankOf, hpa, hpb, hpc, if_true, if_false,
      Bool.false_eq_true] at hab hbc ⊢ <;>
    first
      | (exact hinner_trans hab hbc)
      | omega

/-! ## C6 — the comparator as an order; determinism of the builder -/

/-- A fixture comment with the fields the comparator reads. -/
def sampleComment (i : Int) (tid : Option String) (first : Bool) (t : Nat) :
    PullRequestComment :=
  { id := i, body := "", userLogin := "u", path := some "f.ts",
    line := some 1, position := some 1, created_at := t, html_url := "h",
    resolved := false, threadId := tid, isFirstComment := first }

/-- Thread A's flagged comment, created at 3. -/
def cexA : PullRequestComment := sampleComment 1 (some "A") true 3

/-- Thread C's flagged comment, created at 1. -/
def cexC : PullRequestComment := sampleComment 2 (some "C") true 1

/-- Thread B's comment — its thread has no flagged member. -/
def cexB : PullRequestComment := sampleComment 3 (some "B") false 2

/-- A collection containing a thread with no flagged first comment. -/
def cexList : List PullRequestComment := [cexA, cexC, cexB]

/-- C6 counterexample: on a collection containing a thread with no
flagged member, the refresh comparator is not transitive — `cexA ≤ cexC`
(thread first-times) and `cexC ≤ cexB` (fallback to own times), yet
`cexA ≤ cexB` fails — so it defines no total order on that input. -/
theorem sort_comparator_intransitive_cex :
    leC cexList cexA cexC = true ∧ leC cexList cexC cexB = true ∧
      leC cexList cexA cexB = false := by decide

/-- C6 (amended): the builder is a pure function, hence re-running it on
the same input is deterministic; and on collections where every present
thread id (including the absent one) has exactly one flagged member and
flagged members of distinct threads have distinct creation times, the
comparator's `cmp ≤ 0` order is total and transitive on the collection,
and re-running the builder on its own output leaves the order
unchanged. -/
theorem sort_total_preorder_and_idempotent (l : List PullRequestComment)
    (h2 : UniqueFlagged l) (h3 : FlaggedSeparated l) :
    (∀ a ∈ l, ∀ b ∈ l, leC l a b = true ∨ leC l b a = true)
  ∧ (∀ a ∈ l, ∀ b ∈ l, ∀ c ∈ l,
      leC l a b = true → leC l b c = true → leC l a c = true)
  ∧ sortComments (sortComments l) = sortComments l := by
  refine ⟨fun a _ b _ => leC_total l a b, leC_trans_members l h2 h3, ?_⟩
  have hperm : (sortComments l).Perm l := jsSort_perm _ l
  have hfirst : ∀ x ∈ sortComments l,
      firstOfThread (sortComments l) x.threadId = firstOfThread l x.threadId := by
    intro x hx
    have hxl : x ∈ l := hperm.mem_iff.1 hx
    have hlen := h2 x hxl
    rcases List.length_eq_one.1 hlen with ⟨f, hf⟩
    have hpermf := hperm.filter
      (fun c => decide (c.threadId = x.threadId) && c.isFirstComment)
    rw [hf] at hpermf
    have hsf : (sortComments l).filter
        (fun c => decide (c.threadId = x.threadId) && c.isFirstComment) = [f] :=
      List.perm_singleton.1 hpermf
    unfold firstOfThread
    rw [find?_eq_head?_filter, find?_eq_head?_filter, hsf, hf]
  have hagree : ∀ a ∈ sortComments l, ∀ b ∈ sortComments l,
      leC (sortComments l) a b = leC l a b := by
    intro a ha b hb
    have hinner : cmpInner (sortComments l) a b = cmpInner l a b := by
      unfold cmpInner
      rw [hfirst a ha, hfirst b hb]
    unfold leC
    rw [cmpC_split, cmpC_split, hinner]
  have hpair : (jsSort (leC l) l).Pairwise (fun a b => leC l a b = true) :=
    jsSort_pairwise _ _ (fun a _ b _ => leC_total l a b)
      (leC_trans_members l h2 h3)
  show jsSort (leC (sortComments l)) (sortComments l) = sortComments l
  rw [jsSort_congr _ _ _ hagree]
  exact jsSort_of_pairwise _ _ hpair

/-- A well-behaved fixture: one two-comment thread and one singleton
thread, each with exactly one flagged member, distinct first times. -/
def wellList : List PullRequestComment :=
  [sampleComment 1 (some "A") true 10,
   sampleComment 2 (some "A") false 20,
   sampleComment 3 (some "B") true 30]

/-- C6 witness: idempotence of the builder on the well-behaved
fixture. -/
theorem sort_total_preorder_and_idempotent_witness :
    sortComments (sortComments wellList) = sortComments wellList :=
  (sort_total_preorder_and_idempotent wellList
    (by unfold UniqueFlagged; decide) (by unfold FlaggedSeparated; decide)).2.2

/-! ## C5 — the sort order produced by refresh -/

/-- The `createdAt` of the flagged first comment of `c`'s thread, as the
comparator reads it. -/
def threadFirstTime (l : List PullRequestComment) (c : PullRequestComment) :
    Option Nat :=
  (firstOfThread l c.threadId).map (·.created_at)

/-- The ordering relation the claim asserts between adjacent output
comments: same thread → own times ascending; different threads → thread
first-times descending. -/
def SortSpecOrder (l : List PullRequestComment)
    (a b : PullRequestComment) : Prop :=
  (a.threadId = b.threadId → a.created_at ≤ b.created_at) ∧
  (a.threadId ≠ b.threadId → ∀ x y, threadFirstTime l a = some x →
    threadFirstTime l b = some y → y ≤ x)

/-- A file-anchored comment whose thread's first time is 100. -/
def recA : PullRequestComment := sampleComment 1 (some "A") true 100

/-- A comment with NO file path whose thread's first time is 200. -/
def recB : PullRequestComment :=
  { sampleComment 2 (some "B") true 200 with path := none }

/-- The input collection of the counterexample. -/
def recList : List PullRequestComment := [recB, recA]

/-- C5 counterexample: thread B's first comment (time 200) is newer than
thread A's (time 100), so the claim puts `recB` first; but `recB` has no
file path and the comparator's file-anchoring rule sorts `recA` before
it — the claimed cross-thread ordering fails on this collection. -/
theorem sort_thread_recency_cex :
    ¬ (sortComments recList).Pairwise (SortSpecOrder recList) := by
  intro hcon
  have hsort : sortComments recList = [recA, recB] := by decide
  rw [hsort] at hcon
  rcases List.pairwise_cons.1 hcon with ⟨hrel, _⟩
  have h := (hrel recB (by simp)).2 (by decide) 100 200 (by decide) (by decide)
  exact absurd h (by decide)

/-- C5 (amended): for collections where every comment is file-anchored,
every present thread id has exactly one flagged member, and flagged
members of distinct threads have distinct times, the output of the
refresh sort is pairwise ordered as claimed: same-thread comments by own
`createdAt` ascending, cross-thread comments by their threads' first
comments' `createdAt` descending. -/
theorem sort_thread_recency_order (l : List PullRequestComment)
    (h0 : ∀ c ∈ l, truthyS c.path = true)
    (h2 : UniqueFlagged l) (h3 : FlaggedSeparated l) :
    (sortComments l).Pairwise (SortSpecOrder l) := by
  have hpair : (sortComments l).Pairwise (fun a b => leC l a b = true) :=
    jsSort_pairwise _ _ (fun a _ b _ => leC_total l a b)
      (leC_trans_members l h2 h3)
  refine hpair.imp_of_mem ?_
  intro a b ha hb hle
  have hal : a ∈ l := mem_jsSort.1 ha
  have hbl : b ∈ l := mem_jsSort.1 hb
  replace hle : cmpC l a b ≤ 0 := of_decide_eq_true hle
  rw [cmpC_split] at hle
  have hra : rankOf a = 1 := by
    unfold rankOf
    rw [h0 a hal]
    rfl
  have hrb : rankOf b = 1 := by
    unfold rankOf
    rw [h0 b hbl]
    rfl
  rw [hra, hrb, if_neg (fun hcon => hcon rfl)] at hle
  constructor
  · intro hT
    have heq : cmpInner l a b = (a.created_at : Int) - b.created_at := by
      unfold cmpInner
      rw [if_neg (by rw [hT]; exact fun hcon => hcon rfl)]
    rw [heq] at hle
    omega
  · intro hT x y hx hy
    obtain ⟨fa, hfa, _, _, _⟩ := firstOfThread_spec l a (h2 a hal)
    obtain ⟨fb, hfb, _, _, _⟩ := firstOfThread_spec l b (h2 b hbl)
    have heq : cmpInner l a b = (fb.created_at : Int) - fa.created_at := by
      unfold cmpInner
      rw [if_pos hT, hfa, hfb]
    rw [heq] at hle
    unfold threadFirstTime at hx hy
    rw [hfa] at hx
    rw [hfb] at hy
    have hxa : fa.created_at = x := Option.some.inj hx
    have hyb : fb.created_at = y := Option.some.inj hy
    omega

/-- C5 witness: the amended ordering on the well-behaved fixture. -/
theorem sort_thread_recency_order_witness :
    (sortComments wellList).Pairwise (SortSpecOrder wellList) :=
  sort_thread_recency_order wellList (by decide)
    (by unfold UniqueFlagged; decide) (by unfold FlaggedSeparated; decide)

/-! ## C2 — the isFirstComment flag on fetch results -/

/-- The returned comments of one thread. -/
def outThread (disp : List Int) (tmap : List (Int × String))
    (rest : List RestComment) (t : String) : List PullRequestComment :=
  (buildComments disp tmap rest).filter (fun c => c.threadId = some t)

/-- All fetched REST comments mapped to one thread — the list the
`isFirstComment` computation sorts, displayable or not. -/
def restThread (tmap : List (Int × String)) (rest : List RestComment)
    (t : String) : List RestComment :=
  rest.filter (fun r => mapGet tmap r.id = some t)

/-- C2 counterexample: in the fixture PR, thread `T1` has two REST
comments; the earlier one (id 1) is outdated and excluded, the later one
(id 2) is displayable.  The fetch returns exactly one comment of thread
`T1` — and its `isFirstInThread` flag is FALSE, because the flag is
computed against all fetched REST comments of the thread, where id 1 is
older.  No returned comment of thread `T1` is flagged, refuting both
the exactly-one property and Scenario B. -/
theorem fetch_isFirstComment_missing_cex :
    ((getPullRequestComments fetchEnvFix 5 "acme" "widgets" 42).fst.toOption.getD
        []).map (fun c => (c.id, c.threadId, c.isFirstComment)) =
      [((2 : Int), some "T1", false)]
  ∧ (((getPullRequestComments fetchEnvFix 5 "acme" "widgets" 42).fst.toOption.getD
        []).filter (fun c => c.isFirstComment)).length = 0 :=
  ⟨by decide, by decide⟩

theorem length_le_one_eq_singleton {l : List α} {x : α}
    (hlen : l.length ≤ 1) (hx : x ∈ l) : l = [x] := by
  cases l with
  | nil => exact absurd hx (by simp)
  | cons y ys =>
    cases ys with
    | nil =>
      rcases List.mem_cons.1 hx with rfl | hx'
      · rfl
      · exact absurd hx' (by simp)
    | cons z zs => exact absurd hlen (by simp)

theorem nodup_all_eq_length_le_one {l : List Int} {v : Int}
    (hn : l.Nodup) (hall : ∀ x ∈ l, x = v) : l.length ≤ 1 := by
  cases l with
  | nil => simp
  | cons x xs =>
    cases xs with
    | nil => simp
    | cons y ys =>
      exfalso
      have hx : x = v := hall x (by simp)
      have hy : y = v := hall y (by simp)
      rcases List.nodup_cons.1 hn with ⟨hnx, _⟩
      exact hnx (by rw [hx, ← hy]; simp)

/-- Field-level inversion of `buildComments` membership, including the
`isFirstComment` computation. -/
theorem mem_buildComments_first {disp : List Int}
    {tmap : List (Int × String)} {rest : List RestComment}
    {c : PullRequestComment} (h : c ∈ buildComments disp tmap rest) :
    ∃ x ∈ rest, c.id = x.id ∧ c.created_at = x.created_at ∧
      c.threadId = mapGet tmap x.id ∧
      c.isFirstComment = (match mapGet tmap x.id with
        | some t => if t = "" then false else isFirstIn tmap rest t x.id
        | none => false) := by
  unfold buildComments at h
  rcases List.mem_map.1 h with ⟨x, hx, hcx⟩
  rcases List.mem_filter.1 hx with ⟨hxr, _⟩
  refine ⟨x, hxr, ?_, ?_, ?_, ?_⟩ <;> (rw [← hcx]; rfl)

/-- The ids of `buildComments` output are the ids of the surviving REST
comments. -/
theorem buildComments_ids (disp : List Int) (tmap : List (Int × String))
    (rest : List RestComment) :
    (buildComments disp tmap rest).map (fun c => c.id) =
      (rest.filter (fun c => disp.contains c.id)).map (fun c => c.id) := by
  unfold buildComments
  rw [List.map_map]
  rfl

/-- With pairwise-distinct REST ids, the output ids of a thread's
returned comments are duplicate-free. -/
theorem outThread_ids_nodup {disp : List Int} {tmap : List (Int × String)}
    {rest : List RestComment} (t : String)
    (hnodup : (rest.map (fun r => r.id)).Nodup) :
    (((outThread disp tmap rest t).filter
      (fun c => c.isFirstComment)).map (fun c => c.id)).Nodup := by
  have h1 : (((outThread disp tmap rest t).filter
      (fun c => c.isFirstComment)).map (fun c => c.id)).Sublist
      ((buildComments disp tmap rest).map (fun c => c.id)) := by
    refine List.Sublist.map _ ?_
    exact (List.filter_sublist _).trans (List.filter_sublist _)
  have h2 : ((buildComments disp tmap rest).map (fun c => c.id)).Sublist
      (rest.map (fun r => r.id)) := by
    rw [buildComments_ids]
    exact List.Sublist.map _ (List.filter_sublist _)
  exact (h1.trans h2).nodup hnodup

/-- On a non-empty le-pairwise list, the head is a lower bound. -/
theorem head_le_of_pairwise {le : RestComment → RestComment → Bool}
    {L : List RestComment} {r0 x : RestComment}
    (hp : L.Pairwise (fun a b => le a b = true))
    (hh : L.head? = some r0) (hx : x ∈ L) : x = r0 ∨ le r0 x = true := by
  cases L with
  | nil => exact absurd hx (by simp)
  | cons y ys =>
    have hy : y = r0 := Option.some.inj hh
    subst hy
    rcases List.mem_cons.1 hx with rfl | hx'
    · exact Or.inl rfl
    · exact Or.inr ((List.pairwise_cons.1 hp).1 x hx')

/-- C2 (amended): assume the fetched REST comments have pairwise-distinct
ids.  For every thread `t`: at most one returned comment of thread `t`
carries `isFirstComment`; and when the chronologically first REST
comment of the thread (`r0`, the head of the stable sort the code
performs) itself passes the displayable filter, then exactly one
returned comment of thread `t` is flagged — it has id `r0.id` — and its
`createdAt` is minimal among the returned comments of the thread.  (The
counterexample shows the flag is lost whenever `r0` is excluded.) -/
theorem fetch_isFirst_flag_characterized (disp : List Int)
    (tmap : List (Int × String)) (rest : List RestComment) (t : String)
    (hnodup : (rest.map (fun r => r.id)).Nodup) (ht : t ≠ "") :
    (((outThread disp tmap rest t).filter
        (fun c => c.isFirstComment)).length ≤ 1)
  ∧ (∀ r0, (jsSort leCreated (restThread tmap rest t)).head? = some r0 →
      r0.id ∈ disp →
      ((outThread disp tmap rest t).filter
          (fun c => c.isFirstComment)).map (fun c => c.id) = [r0.id]
      ∧ ∀ c ∈ outThread disp tmap rest t, r0.created_at ≤ c.created_at) := by
  have hflag_id : ∀ c ∈ (outThread disp tmap rest t).filter
      (fun c => c.isFirstComment),
      (jsSort leCreated (restThread tmap rest t)).head?.map
        (fun r => r.id) = some c.id := by
    intro c hc
    rcases List.mem_filter.1 hc with ⟨hcout, hcflag⟩
    rcases List.mem_filter.1 hcout with ⟨hcbuild, hctid⟩
    have hctid' : c.threadId = some t := of_decide_eq_true hctid
    rcases mem_buildComments_first hcbuild with ⟨x, _hxr, hid, _hca, htid, hfirst⟩
    have hmget : mapGet tmap x.id = some t := by rw [← htid]; exact hctid'
    rw [hmget] at hfirst
    have hfirst2 : c.isFirstComment =
        (if t = "" then false else isFirstIn tmap rest t x.id) := hfirst
    rw [if_neg ht] at hfirst2
    have hIn : isFirstIn tmap rest t x.id = true := by rw [← hfirst2]; exact hcflag
    have hInP : ((jsSort leCreated
        (rest.filter (fun r => mapGet tmap r.id = some t))).head?.map
        (fun r => r.id)) = some x.id := by
      have := of_decide_eq_true hIn
      exact this
    rw [hid]
    exact hInP
  constructor
  · cases hfl : (outThread disp tmap rest t).filter (fun c => c.isFirstComment) with
    | nil => simp
    | cons c0 cs =>
      have hn := @outThread_ids_nodup disp tmap rest t hnodup
      rw [hfl] at hn
      have hall : ∀ i ∈ ((c0 :: cs).map (fun c => c.id)), i = c0.id := by
        intro i hi
        rcases List.mem_map.1 hi with ⟨c, hcm, hci⟩
        have h1 := hflag_id c (by rw [hfl]; exact hcm)
        have h2 := hflag_id c0 (by rw [hfl]; simp)
        have : some c.id = some c0.id := h1 ▸ h2
        rw [← hci]
        exact Option.some.inj this
      have := nodup_all_eq_length_le_one hn hall
      simpa using this
  · intro r0 hhead hr0disp
    have hr0tc : r0 ∈ restThread tmap rest t := by
      have : r0 ∈ jsSort leCreated (restThread tmap rest t) := by
        cases hL : jsSort leCreated (restThread tmap rest t) with
        | nil => rw [hL] at hhead; exact absurd hhead (by simp)
        | cons y ys =>
          rw [hL] at hhead
          rw [Option.some.inj hhead] at hL ⊢
          simp
      exact mem_jsSort.1 this
    rcases List.mem_filter.1 hr0tc with ⟨hr0rest, hr0map⟩
    have hr0map' : mapGet tmap r0.id = some t := of_decide_eq_true hr0map
    have hr0build : toPull tmap rest r0 ∈ buildComments disp tmap rest := by
      unfold buildComments
      exact List.mem_map.2 ⟨r0, List.mem_filter.2
        ⟨hr0rest, contains_iff_mem.2 hr0disp⟩, rfl⟩
    have hr0tid : (toPull tmap rest r0).threadId = some t := by
      show mapGet tmap r0.id = some t
      exact hr0map'
    have hr0out : toPull tmap rest r0 ∈ outThread disp tmap rest t :=
      List.mem_filter.2 ⟨hr0build, decide_eq_true hr0tid⟩
    have hr0flag : (toPull tmap rest r0).isFirstComment = true := by
      have hstep : (toPull tmap rest r0).isFirstComment =
          (match mapGet tmap r0.id with
           | some t' => if t' = "" then false else isFirstIn tmap rest t' r0.id
           | none => false) := rfl
      rw [hstep, hr0map']
      show (if t = "" then false else isFirstIn tmap rest t r0.id) = true
      rw [if_neg ht]
      apply decide_eq_true
      show ((jsSort leCreated (restThread tmap rest t)).head?.map
        (fun r => r.id)) = some r0.id
      rw [hhead]
      rfl
    have hr0mem : toPull tmap rest r0 ∈ (outThread disp tmap rest t).filter
        (fun c => c.isFirstComment) :=
      List.mem_filter.2 ⟨hr0out, hr0flag⟩
    have hsing : (outThread disp tmap rest t).filter
        (fun c => c.isFirstComment) = [toPull tmap rest r0] := by
      refine length_le_one_eq_singleton ?_ hr0mem
      cases hfl : (outThread disp tmap rest t).filter (fun c => c.isFirstComment) with
      | nil => simp
      | cons c0 cs =>
        have hn := @outThread_ids_nodup disp tmap rest t hnodup
        rw [hfl] at hn
        have hall : ∀ i ∈ ((c0 :: cs).map (fun c => c.id)), i = c0.id := by
          intro i hi
          rcases List.mem_map.1 hi with ⟨c, hcm, hci⟩
          have h1 := hflag_id c (by rw [hfl]; exact hcm)
          have h2 := hflag_id c0 (by rw [hfl]; simp)
          have : some c.id = some c0.id := h1 ▸ h2
          rw [← hci]
          exact Option.some.inj this
        have := nodup_all_eq_length_le_one hn hall
        simpa using this
    constructor
    · rw [hsing]
      rfl
    · intro c hcout
      rcases List.mem_filter.1 hcout with ⟨hcbuild, hctid⟩
      have hctid' : c.threadId = some t := of_decide_eq_true hctid
      rcases mem_buildComments_first hcbuild with ⟨x, hxr, _hid, hca, htid, _⟩
      have hmget : mapGet tmap x.id = some t := by rw [← htid]; exact hctid'
      have hxtc : x ∈ restThread tmap rest t :=
        List.mem_filter.2 ⟨hxr, decide_eq_true hmget⟩
      have hxsorted : x ∈ jsSort leCreated (restThread tmap rest t) :=
        mem_jsSort.2 hxtc
      have hpair : (jsSort leCreated (restThread tmap rest t)).Pairwise
          (fun a b => leCreated a b = true) := by
        refine jsSort_pairwise _ _ ?_ ?_
        · intro a _ b _
          unfold leCreated
          rcases Nat.le_total a.created_at b.created_at with h | h
          · exact Or.inl (decide_eq_true h)
          · exact Or.inr (decide_eq_true h)
        · intro a _ b _ c' _ h1 h2
          exact decide_eq_true
            (Nat.le_trans (of_decide_eq_true h1) (of_decide_eq_true h2))
      rcases head_le_of_pairwise hpair hhead hxsorted with rfl | hle
      · rw [hca]
      · rw [hca]
        exact of_decide_eq_true hle

/-- Fixture for the C2 witness: like `graphRespFix` but with both
comments displayable (no outdated flag on the earliest). -/
def gNodeOldLive : GComment :=
  { databaseId := some 1, path := some "src/a.ts", outdated := false }

/-- The witness thread: both comments displayable. -/
def gThreadLive : GThread :=
  { id := "T", isResolved := false, comments := [gNodeOldLive, gNodeNew] }

/-- The witness GraphQL response. -/
def graphRespLive : GraphResp := { errors := false, threads := [gThreadLive] }

/-- C2 witness: when the earliest REST comment of thread `T` is itself
displayable, exactly one returned comment is flagged (id 1) and its time
is minimal. -/
theorem fetch_isFirst_flag_characterized_witness :
    ((outThread (displayableIdsOf graphRespLive) (threadMapOf graphRespLive)
        [restOld, restNew] "T").filter
        (fun c => c.isFirstComment)).map (fun c => c.id) = [(1 : Int)] := by
  have h := fetch_isFirst_flag_characterized (displayableIdsOf graphRespLive)
    (threadMapOf graphRespLive) [restOld, restNew] "T" (by decide) (by decide)
  exact (h.2 restOld (by decide) (by decide)).1

end Gittron
